import Mathlib

/-!
Verification development for the oc-mirror image mirroring engine.

Go strings are modelled as lists of characters (`Str`); a text file is
modelled as the list of its lines (the scanner in the Go code strips the
newline terminators).  Go maps are modelled as association lists whose
iteration order is the list order; since Go randomizes map iteration
order, two lists that are permutations of each other model the same map.
-/

set_option autoImplicit false

namespace OcMirror

abbrev Str := List Char

/-- Model of Go strings.Split with a one-character separator: splits at every
occurrence of the separator, so the empty string yields one empty piece. -/
def splitOnChar (c : Char) : Str → List Str
  | [] => [[]]
  | x :: xs =>
    if x = c then [] :: splitOnChar c xs
    else
      match splitOnChar c xs with
      | [] => [[x]]
      | s :: rest => (x :: s) :: rest

theorem splitOnChar_ne_nil (c : Char) (l : Str) : splitOnChar c l ≠ [] := by
  induction l with
  | nil => simp [splitOnChar]
  | cons x xs ih =>
    simp only [splitOnChar]
    by_cases h : x = c
    · simp [h]
    · simp only [h, if_false]
      cases hs : splitOnChar c xs with
      | nil => simp
      | cons s rest => simp

/-- Splitting a string that does not contain the separator yields the string. -/
theorem splitOnChar_no_sep (c : Char) (l : Str) (h : ∀ x ∈ l, x ≠ c) :
    splitOnChar c l = [l] := by
  induction l with
  | nil => rfl
  | cons x xs ih =>
    have hx : x ≠ c := h x (by simp)
    have hxs : ∀ y ∈ xs, y ≠ c := fun y hy => h y (by simp [hy])
    simp only [splitOnChar, hx, if_false, ih hxs]

/-- Splitting at an explicit separator occurrence peels off the first piece. -/
theorem splitOnChar_append (c : Char) (a b : Str) (ha : ∀ x ∈ a, x ≠ c) :
    splitOnChar c (a ++ c :: b) = a :: splitOnChar c b := by
  induction a with
  | nil => simp [splitOnChar]
  | cons x xs ih =>
    have hx : x ≠ c := ha x (by simp)
    have hxs : ∀ y ∈ xs, y ≠ c := fun y hy => ha y (by simp [hy])
    simp only [List.cons_append, splitOnChar, hx, if_false]
    rw [List.append_eq, ih hxs]

theorem splitOnChar_two (c : Char) (a b : Str)
    (ha : ∀ x ∈ a, x ≠ c) (hb : ∀ x ∈ b, x ≠ c) :
    splitOnChar c (a ++ c :: b) = [a, b] := by
  rw [splitOnChar_append c a b ha, splitOnChar_no_sep c b hb]

theorem splitOnChar_three (c : Char) (a b d : Str)
    (ha : ∀ x ∈ a, x ≠ c) (hb : ∀ x ∈ b, x ≠ c) (hd : ∀ x ∈ d, x ≠ c) :
    splitOnChar c (a ++ c :: (b ++ c :: d)) = [a, b, d] := by
  rw [splitOnChar_append c a _ ha, splitOnChar_two c b d hb hd]

/-- Whether the first list is a leading run of the second (Go strings.HasPrefix). -/
def isLead : Str → Str → Bool
  | [], _ => true
  | _ :: _, [] => false
  | a :: as, b :: bs => a = b && isLead as bs

/-- Model of Go strings.TrimPrefix: removes one leading occurrence if present. -/
def trimLead (p l : Str) : Str := if isLead p l then l.drop p.length else l

/-- Model of Go strings.TrimSuffix: removes one trailing occurrence if present. -/
def trimTail (p l : Str) : Str :=
  if isLead p.reverse l.reverse then l.take (l.length - p.length) else l

def isWs (ch : Char) : Bool := ch = ' ' || ch = '\t' || ch = '\n' || ch = '\r'

/-- Model of Go strings.TrimSpace. -/
def trimSpace (l : Str) : Str := ((l.dropWhile isWs).reverse.dropWhile isWs).reverse

theorem dropWhile_of_none {p : Char → Bool} (l : Str) (h : ∀ x ∈ l, p x = false) :
    l.dropWhile p = l := by
  induction l with
  | nil => rfl
  | cons x xs ih =>
    rw [List.dropWhile_cons, h x (by simp)]
    simp

theorem trimSpace_no_ws (l : Str) (h : ∀ x ∈ l, isWs x = false) : trimSpace l = l := by
  unfold trimSpace
  rw [dropWhile_of_none l h, dropWhile_of_none, List.reverse_reverse]
  intro x hx
  exact h x (by simpa using hx)

/-- First path component: everything before the first slash. -/
def headSeg (l : Str) : Str := l.takeWhile (fun ch => ch ≠ '/')

/-- Joins the nonempty segments with slashes (used for mirror keys and values,
where an absent namespace contributes no segment). -/
def intercalateChar (c : Char) : List Str → Str
  | [] => []
  | [s] => s
  | s :: rest => s ++ c :: intercalateChar c rest

def joinNE (segs : List Str) : Str :=
  intercalateChar '/' (segs.filter (fun s => !s.isEmpty))

theorem headSeg_no_slash (l : Str) (h : ∀ x ∈ l, x ≠ '/') : headSeg l = l := by
  induction l with
  | nil => rfl
  | cons x xs ih =>
    have hx : x ≠ '/' := h x (by simp)
    have hxs := fun y hy => h y (List.mem_cons_of_mem x hy)
    show List.takeWhile _ (x :: xs) = x :: xs
    rw [List.takeWhile_cons, if_pos (by simp [hx])]
    exact congrArg (x :: ·) (ih hxs)

theorem headSeg_append_slash (a b : Str) (h : ∀ x ∈ a, x ≠ '/') :
    headSeg (a ++ '/' :: b) = a := by
  induction a with
  | nil =>
    show List.takeWhile _ ('/' :: b) = []
    rw [List.takeWhile_cons, if_neg (by simp)]
  | cons x xs ih =>
    have hx : x ≠ '/' := h x (by simp)
    have hxs := fun y hy => h y (List.mem_cons_of_mem x hy)
    show List.takeWhile _ (x :: (xs ++ '/' :: b)) = x :: xs
    rw [List.takeWhile_cons, if_pos (by simp [hx])]
    exact congrArg (x :: ·) (ih hxs)

/-! ## Image categories and references (pkg/image, pkg/api/v1alpha2) -/

/-- Image category, the closed set of v1alpha2 image types. -/
inductive ImageType where
  | typeGeneric
  | typeOCPRelease
  | typeOCPReleaseContent
  | typeCincinnatiGraph
  | typeOperatorCatalog
  | typeOperatorBundle
  | typeOperatorRelatedImage
deriving DecidableEq

/-- Destination type of a typed image reference (registry, local file, oci layout). -/
inductive DestinationType where
  | registry
  | file
  | oci
deriving DecidableEq

/-- Parsed docker image reference: registry, namespace, name, tag and digest id. -/
structure DockerImageReference where
  registry : Str
  nspace : Str
  name : Str
  tag : Str
  id : Str
deriving DecidableEq

/-- Characters allowed in namespace, name and tag components. -/
def plainChar (ch : Char) : Bool :=
  ch ≠ '/' && ch ≠ ':' && ch ≠ '@' && ch ≠ '=' && !isWs ch

/-- Characters allowed in the registry and digest components (a colon is legal:
a registry may carry a port, a digest its algorithm). -/
def hostChar (ch : Char) : Bool :=
  ch ≠ '/' && ch ≠ '@' && ch ≠ '=' && !isWs ch

/-- A first path segment is taken as a registry host when it looks like one. -/
def registryLike (reg : Str) : Bool :=
  reg.contains '.' || reg.contains ':' || reg == ("localhost").data

/-- Modelled from the spec: canonical string form of a reference,
transport-free, as written by the Exact method of the reference library
(the library itself is an external collaborator):
registry slash namespace slash repository, optional colon tag, optional at digest.
Empty registry or namespace contributes no segment. -/
def DockerImageReference.exact (r : DockerImageReference) : Str :=
  (if r.registry.isEmpty then [] else r.registry ++ ['/'])
    ++ ((if r.nspace.isEmpty then [] else r.nspace ++ ['/'])
    ++ (r.name
    ++ ((if r.tag.isEmpty then [] else ':' :: r.tag)
    ++ (if r.id.isEmpty then [] else '@' :: r.id))))

/-- References in the domain on which the external parser and Exact are mutual
inverses: nonempty host-like registry, slash-free single-segment namespace,
nonempty name, and no separator or whitespace characters inside components. -/
def wellFormedRef (r : DockerImageReference) : Bool :=
  !r.registry.isEmpty && r.registry.all hostChar && registryLike r.registry
    && r.nspace.all plainChar
    && !r.name.isEmpty && r.name.all plainChar
    && r.tag.all plainChar
    && r.id.all hostChar

def parseNameTag (reg ns : Str) (nt idStr : Str) : Except Str DockerImageReference :=
  match splitOnChar ':' nt with
  | [nm] => if nm.isEmpty then .error nt else .ok ⟨reg, ns, nm, [], idStr⟩
  | [nm, tg] => if nm.isEmpty then .error nt else .ok ⟨reg, ns, nm, tg, idStr⟩
  | _ => .error nt

def parseBaseRef (base idStr : Str) : Except Str DockerImageReference :=
  match splitOnChar '/' base with
  | [reg, nt] => if registryLike reg then parseNameTag reg [] nt idStr else .error base
  | [reg, ns, nt] => if registryLike reg then parseNameTag reg ns nt idStr else .error base
  | _ => .error base

/-- Modelled from the spec: the external reference parser, restricted to the
registry destination type (mapping files written by WriteImageMapping carry no
transport). Splits off the digest at the at-sign, then the path segments, then
the tag of the last segment. -/
def parseDockerRef (s : Str) : Except Str DockerImageReference :=
  match splitOnChar '@' s with
  | [base] => parseBaseRef base []
  | [base, idStr] => parseBaseRef base idStr
  | _ => .error s

/-- A typed image reference pairs a parsed reference with its destination type. -/
structure TypedImageReference where
  ref : DockerImageReference
  dtype : DestinationType
deriving DecidableEq

/-- Modelled from the spec: imagesource.ParseReference for registry references. -/
def parseReference (s : Str) : Except Str TypedImageReference :=
  (parseDockerRef s).map (fun r => ⟨r, .registry⟩)

/-- TypedImage couples a typed image reference with an image category. -/
structure TypedImage where
  tir : TypedImageReference
  category : ImageType
deriving DecidableEq

/-- ParseTypedImage creates a TypedImage from a string and a type. -/
def parseTypedImage (s : Str) (typ : ImageType) : Except Str TypedImage :=
  (parseReference s).map (fun tir => ⟨tir, typ⟩)

/-! ## Typed image mapping (part_003): a Go map modelled as an association
list whose order is the iteration order. -/

abbrev TypedImageMapping := List (TypedImage × TypedImage)

def lookupTI (m : TypedImageMapping) (k : TypedImage) : Option TypedImage :=
  match m with
  | [] => none
  | (k0, v0) :: rest => if k0 = k then some v0 else lookupTI rest k

/-- Assignment into the map: overwrite in place or append a new entry. -/
def insertTI (m : TypedImageMapping) (k v : TypedImage) : TypedImageMapping :=
  match m with
  | [] => [(k, v)]
  | (k0, v0) :: rest => if k0 = k then (k0, v) :: rest else (k0, v0) :: insertTI rest k v

def keysTI (m : TypedImageMapping) : List TypedImage := m.map Prod.fst

/-- Two association lists model the same Go map when every key looks up equally. -/
def mapsEqualTI (m1 m2 : TypedImageMapping) : Prop :=
  ∀ k, lookupTI m1 k = lookupTI m2 k

/-- Errors of ReadImageMapping: a line that does not split into exactly two
pieces, or a piece the reference parser rejects. -/
inductive MapErr where
  | malformedLine (line : Str)
  | invalidRef (s : Str)
deriving DecidableEq

/-- One scanner iteration of ReadImageMapping: split the line on the separator,
require exactly two pieces, parse both sides with the given category, assign
into the map. -/
def readImageMappingLoop (sep : Char) (typ : ImageType) :
    List Str → TypedImageMapping → Except MapErr TypedImageMapping
  | [], acc => .ok acc
  | text :: rest, acc =>
    match splitOnChar sep text with
    | [a, b] =>
      match parseTypedImage (trimSpace a) typ with
      | .error e => .error (.invalidRef e)
      | .ok src =>
        match parseTypedImage (trimSpace b) typ with
        | .error e => .error (.invalidRef e)
        | .ok dst => readImageMappingLoop sep typ rest (insertTI acc src dst)
    | _ => .error (.malformedLine text)

/-- ReadImageMapping reads a mapping file (given as its list of lines) and
parses each line into a map entry. -/
def readImageMapping (fileLines : List Str) (sep : Char) (typ : ImageType) :
    Except MapErr TypedImageMapping :=
  readImageMappingLoop sep typ fileLines []

/-- WriteImageMapping writes one line per entry, source Exact, equals sign,
destination Exact, in map iteration order; categories and destination types are
not written. -/
def writeImageMapping (m : TypedImageMapping) : List Str :=
  m.map (fun e => e.1.tir.ref.exact ++ '=' :: e.2.tir.ref.exact)

/-! ## Round-trip properties of the reference model -/

theorem plainChar_host {ch : Char} (h : plainChar ch = true) : hostChar ch = true := by
  simp only [plainChar, Bool.and_eq_true] at h
  simp only [hostChar, Bool.and_eq_true]
  tauto

/-- Name and tag body of the canonical form. -/
def ntStr (r : DockerImageReference) : Str :=
  r.name ++ (if r.tag.isEmpty then [] else ':' :: r.tag)

/-- Transport-free canonical form without the digest part. -/
def baseStr (r : DockerImageReference) : Str :=
  (if r.registry.isEmpty then [] else r.registry ++ ['/'])
    ++ ((if r.nspace.isEmpty then [] else r.nspace ++ ['/']) ++ ntStr r)

theorem exact_decomp (r : DockerImageReference) :
    r.exact = baseStr r ++ (if r.id.isEmpty then [] else '@' :: r.id) := by
  simp [DockerImageReference.exact, baseStr, ntStr, List.append_assoc]

theorem wf_unpack {r : DockerImageReference} (h : wellFormedRef r = true) :
    r.registry ≠ [] ∧ (∀ x ∈ r.registry, hostChar x = true) ∧ registryLike r.registry = true
    ∧ (∀ x ∈ r.nspace, plainChar x = true)
    ∧ r.name ≠ [] ∧ (∀ x ∈ r.name, plainChar x = true)
    ∧ (∀ x ∈ r.tag, plainChar x = true)
    ∧ (∀ x ∈ r.id, hostChar x = true) := by
  simp only [wellFormedRef, Bool.and_eq_true, List.all_eq_true, Bool.not_eq_true'] at h
  obtain ⟨⟨⟨⟨⟨⟨⟨he, ha⟩, hl⟩, hns⟩, hne⟩, hna⟩, ht⟩, hi⟩ := h
  exact ⟨fun hnil => by simp [hnil] at he, ha, hl, hns,
    fun hnil => by simp [hnil] at hne, hna, ht, hi⟩

theorem ntStr_all {r : DockerImageReference} {P : Char → Prop}
    (hname : ∀ x ∈ r.name, P x) (htag : ∀ x ∈ r.tag, P x) (hco : P ':') :
    ∀ x ∈ ntStr r, P x := by
  intro x hx
  unfold ntStr at hx
  split_ifs at hx <;> simp only [List.mem_append, List.append_nil, List.mem_cons] at hx
  · exact hname x hx
  · rcases hx with hx | hx | hx
    · exact hname x hx
    · subst hx; assumption
    · exact htag x hx

theorem baseStr_all {r : DockerImageReference} {P : Char → Prop}
    (hreg : ∀ x ∈ r.registry, P x) (hns : ∀ x ∈ r.nspace, P x)
    (hname : ∀ x ∈ r.name, P x) (htag : ∀ x ∈ r.tag, P x)
    (hsl : P '/') (hco : P ':') :
    ∀ x ∈ baseStr r, P x := by
  have hnt := ntStr_all hname htag hco
  intro x hx
  unfold baseStr at hx
  split_ifs at hx <;>
    simp only [List.mem_append, List.nil_append, List.mem_singleton] at hx <;>
    (first
      | tauto
      | (rcases hx with hx | hx
         · rcases hx with hx | hx
           · exact hreg x hx
           · subst hx; assumption
         · tauto)
      | (rcases hx with hx | hx
         · rcases hx with hx | hx
           · exact hns x hx
           · subst hx; assumption
         · exact hnt x hx)
      | (rcases hx with hx | hx
         · rcases hx with hx | hx
           · exact hreg x hx
           · subst hx; assumption
         · rcases hx with hx | hx
           · rcases hx with hx | hx
             · exact hns x hx
             · subst hx; assumption
           · exact hnt x hx))

theorem exact_all {r : DockerImageReference} {P : Char → Prop}
    (hreg : ∀ x ∈ r.registry, P x) (hns : ∀ x ∈ r.nspace, P x)
    (hname : ∀ x ∈ r.name, P x) (htag : ∀ x ∈ r.tag, P x) (hid : ∀ x ∈ r.id, P x)
    (hsl : P '/') (hco : P ':') (hat : P '@') :
    ∀ x ∈ r.exact, P x := by
  have hbase := baseStr_all hreg hns hname htag hsl hco
  intro x hx
  rw [exact_decomp] at hx
  split_ifs at hx <;>
    simp only [List.mem_append, List.append_nil, List.mem_cons] at hx <;>
    (first | tauto | (rcases hx with hx | hx | hx
                      · exact hbase x hx
                      · subst hx; assumption
                      · exact hid x hx))

theorem hostChar_facts {ch : Char} (h : hostChar ch = true) :
    ch ≠ '/' ∧ ch ≠ '@' ∧ ch ≠ '=' ∧ isWs ch = false := by
  simp only [hostChar, Bool.and_eq_true, decide_eq_true_eq, Bool.not_eq_true'] at h
  tauto

theorem plainChar_facts {ch : Char} (h : plainChar ch = true) :
    ch ≠ '/' ∧ ch ≠ ':' ∧ ch ≠ '@' ∧ ch ≠ '=' ∧ isWs ch = false := by
  simp only [plainChar, Bool.and_eq_true, decide_eq_true_eq, Bool.not_eq_true'] at h
  tauto

theorem isEmpty_false_of_ne {l : Str} (h : l ≠ []) : l.isEmpty = false := by
  cases hl : l with
  | nil => exact absurd hl h
  | cons a as => rfl

theorem parseNameTag_exact (reg ns idStr : Str) (r : DockerImageReference)
    (hn1 : r.name ≠ []) (hNameCo : ∀ x ∈ r.name, x ≠ ':') (hTagCo : ∀ x ∈ r.tag, x ≠ ':') :
    parseNameTag reg ns (ntStr r) idStr = .ok ⟨reg, ns, r.name, r.tag, idStr⟩ := by
  have hnmE : r.name.isEmpty = false := isEmpty_false_of_ne hn1
  unfold ntStr
  by_cases htE : r.tag.isEmpty = true
  · have htNil : r.tag = [] := List.isEmpty_iff.1 htE
    rw [if_pos htE, List.append_nil]
    unfold parseNameTag
    rw [splitOnChar_no_sep ':' r.name hNameCo]
    simp [hnmE, htNil]
  · rw [if_neg htE]
    unfold parseNameTag
    rw [splitOnChar_two ':' r.name r.tag hNameCo hTagCo]
    simp [hnmE]

theorem parseBaseRef_exact (r : DockerImageReference) (h : wellFormedRef r = true)
    (idStr : Str) :
    parseBaseRef (baseStr r) idStr = .ok ⟨r.registry, r.nspace, r.name, r.tag, idStr⟩ := by
  obtain ⟨hr1, hr2, hr3, hns, hn1, hn2, ht, hid⟩ := wf_unpack h
  have hRegSl : ∀ x ∈ r.registry, x ≠ '/' := fun x hx => (hostChar_facts (hr2 x hx)).1
  have hNsSl : ∀ x ∈ r.nspace, x ≠ '/' := fun x hx => (plainChar_facts (hns x hx)).1
  have hNameSl : ∀ x ∈ r.name, x ≠ '/' := fun x hx => (plainChar_facts (hn2 x hx)).1
  have hTagSl : ∀ x ∈ r.tag, x ≠ '/' := fun x hx => (plainChar_facts (ht x hx)).1
  have hNameCo : ∀ x ∈ r.name, x ≠ ':' := fun x hx => (plainChar_facts (hn2 x hx)).2.1
  have hTagCo : ∀ x ∈ r.tag, x ≠ ':' := fun x hx => (plainChar_facts (ht x hx)).2.1
  have hNtSl : ∀ x ∈ ntStr r, x ≠ '/' := ntStr_all hNameSl hTagSl (by decide)
  have hRegE : ¬(r.registry.isEmpty = true) := by
    rw [isEmpty_false_of_ne hr1]; exact Bool.false_ne_true
  unfold baseStr
  rw [if_neg hRegE, List.append_assoc, List.singleton_append]
  by_cases hnsE : r.nspace.isEmpty = true
  · have hnsNil : r.nspace = [] := List.isEmpty_iff.1 hnsE
    rw [if_pos hnsE, List.nil_append]
    simp only [parseBaseRef, splitOnChar_two '/' r.registry (ntStr r) hRegSl hNtSl, hr3,
      if_true, parseNameTag_exact r.registry [] idStr r hn1 hNameCo hTagCo, hnsNil]
  · rw [if_neg hnsE, List.append_assoc, List.singleton_append]
    simp only [parseBaseRef,
      splitOnChar_three '/' r.registry r.nspace (ntStr r) hRegSl hNsSl hNtSl, hr3,
      if_true, parseNameTag_exact r.registry r.nspace idStr r hn1 hNameCo hTagCo]

/-- The modelled parser inverts the canonical form on well-formed references. -/
theorem parseDockerRef_exact (r : DockerImageReference) (h : wellFormedRef r = true) :
    parseDockerRef r.exact = .ok r := by
  obtain ⟨hr1, hr2, hr3, hns, hn1, hn2, ht, hid⟩ := wf_unpack h
  have hRegAt : ∀ x ∈ r.registry, x ≠ '@' := fun x hx => (hostChar_facts (hr2 x hx)).2.1
  have hNsAt : ∀ x ∈ r.nspace, x ≠ '@' := fun x hx => (plainChar_facts (hns x hx)).2.2.1
  have hNameAt : ∀ x ∈ r.name, x ≠ '@' := fun x hx => (plainChar_facts (hn2 x hx)).2.2.1
  have hTagAt : ∀ x ∈ r.tag, x ≠ '@' := fun x hx => (plainChar_facts (ht x hx)).2.2.1
  have hIdAt : ∀ x ∈ r.id, x ≠ '@' := fun x hx => (hostChar_facts (hid x hx)).2.1
  have hBaseAt : ∀ x ∈ baseStr r, x ≠ '@' :=
    baseStr_all hRegAt hNsAt hNameAt hTagAt (by decide) (by decide)
  rw [exact_decomp]
  by_cases hidE : r.id.isEmpty = true
  · have hidNil : r.id = [] := List.isEmpty_iff.1 hidE
    rw [if_pos hidE, List.append_nil]
    simp only [parseDockerRef, splitOnChar_no_sep '@' (baseStr r) hBaseAt,
      parseBaseRef_exact r h []]
    rw [← hidNil]
  · rw [if_neg hidE]
    simp only [parseDockerRef, splitOnChar_two '@' (baseStr r) r.id hBaseAt hIdAt,
      parseBaseRef_exact r h r.id]

/-! ## Properties of the typed image mapping -/

theorem lookupTI_cons_self {m : TypedImageMapping} {k v : TypedImage} :
    lookupTI ((k, v) :: m) k = some v := by
  simp [lookupTI]

theorem lookupTI_cons_ne {m : TypedImageMapping} {k0 v0 k : TypedImage} (h : k0 ≠ k) :
    lookupTI ((k0, v0) :: m) k = lookupTI m k := by
  simp [lookupTI, h]

theorem lookupTI_none_iff {m : TypedImageMapping} {k : TypedImage} :
    lookupTI m k = none ↔ k ∉ keysTI m := by
  induction m with
  | nil => simp [lookupTI, keysTI]
  | cons e rest ih =>
    obtain ⟨k0, v0⟩ := e
    by_cases h : k0 = k
    · subst h
      simp [lookupTI, keysTI]
    · rw [lookupTI_cons_ne h, ih]
      simp [keysTI, h]
      tauto

theorem lookupTI_some_mem {m : TypedImageMapping} {k v : TypedImage}
    (h : lookupTI m k = some v) : (k, v) ∈ m := by
  induction m with
  | nil => simp [lookupTI] at h
  | cons e rest ih =>
    obtain ⟨k0, v0⟩ := e
    by_cases hk : k0 = k
    · subst hk
      rw [lookupTI_cons_self] at h
      have hv := Option.some.inj h
      subst hv
      exact List.mem_cons_self _ _
    · rw [lookupTI_cons_ne hk] at h
      exact List.mem_cons_of_mem _ (ih h)

theorem lookupTI_append_none {a : TypedImageMapping} {k : TypedImage}
    (h : lookupTI a k = none) (b : TypedImageMapping) :
    lookupTI (a ++ b) k = lookupTI b k := by
  induction a with
  | nil => simp
  | cons e rest ih =>
    obtain ⟨k0, v0⟩ := e
    by_cases hk : k0 = k
    · subst hk; rw [lookupTI_cons_self] at h; exact absurd h (by simp)
    · rw [lookupTI_cons_ne hk] at h
      rw [List.cons_append, lookupTI_cons_ne hk]
      exact ih h

theorem lookupTI_middle_ne {l1 l2 : TypedImageMapping} {k k0 : TypedImage} {v0 : TypedImage}
    (h : k ≠ k0) :
    lookupTI (l1 ++ (k0, v0) :: l2) k = lookupTI (l1 ++ l2) k := by
  induction l1 with
  | nil => simp [lookupTI_cons_ne (Ne.symm h)]
  | cons e rest ih =>
    obtain ⟨k1, v1⟩ := e
    by_cases hk : k1 = k
    · subst hk; simp [lookupTI_cons_self]
    · simp only [List.cons_append, lookupTI_cons_ne hk]
      exact ih

theorem insertTI_fresh {m : TypedImageMapping} {k v : TypedImage}
    (h : lookupTI m k = none) : insertTI m k v = m ++ [(k, v)] := by
  induction m with
  | nil => rfl
  | cons e rest ih =>
    obtain ⟨k0, v0⟩ := e
    by_cases hk : k0 = k
    · subst hk; rw [lookupTI_cons_self] at h; exact absurd h (by simp)
    · rw [lookupTI_cons_ne hk] at h
      simp only [insertTI, hk, if_false, List.cons_append]
      rw [ih h]

theorem keysTI_append (a b : TypedImageMapping) : keysTI (a ++ b) = keysTI a ++ keysTI b := by
  simp [keysTI]

/-- Association lists with distinct keys and equal lookups are permutations:
equal Go maps serialize the same multiset of lines. -/
theorem assoc_perm (m1 : TypedImageMapping) : ∀ m2 : TypedImageMapping,
    (keysTI m1).Nodup → (keysTI m2).Nodup → mapsEqualTI m1 m2 → m1.Perm m2 := by
  induction m1 with
  | nil =>
    intro m2 _ _ he
    cases m2 with
    | nil => exact List.Perm.refl []
    | cons e rest =>
      exfalso
      obtain ⟨k0, v0⟩ := e
      have h0 := he k0
      rw [lookupTI_cons_self] at h0
      simp [lookupTI] at h0
  | cons e m1x ih =>
    intro m2 h1 h2 he
    obtain ⟨k, v⟩ := e
    have hv : lookupTI m2 k = some v := by
      have h0 := he k
      rw [lookupTI_cons_self] at h0
      exact h0.symm
    obtain ⟨l1, l2, rfl⟩ := List.append_of_mem (lookupTI_some_mem hv)
    have hkeys2 : (keysTI l1 ++ k :: keysTI l2).Nodup := by
      have h3 : (keysTI (l1 ++ (k, v) :: l2)).Nodup := h2
      rw [keysTI_append] at h3
      simpa [keysTI] using h3
    have hkl1 : k ∉ keysTI l1 := fun hmem =>
      (List.disjoint_of_nodup_append hkeys2) hmem (by simp)
    have hkl2 : k ∉ keysTI l2 := by
      have h3 : (k :: keysTI l2).Nodup := hkeys2.of_append_right
      exact (List.nodup_cons.1 h3).1
    have h1k : (k :: keysTI m1x).Nodup := h1
    have h1x : (keysTI m1x).Nodup := (List.nodup_cons.1 h1k).2
    have hkm1 : k ∉ keysTI m1x := (List.nodup_cons.1 h1k).1
    have h2x : (keysTI (l1 ++ l2)).Nodup := by
      rw [keysTI_append]
      have hsub : List.Sublist (keysTI l1 ++ keysTI l2) (keysTI l1 ++ k :: keysTI l2) :=
        List.Sublist.append_left (List.sublist_cons_self k (keysTI l2)) (keysTI l1)
      exact hkeys2.sublist hsub
    have he2 : mapsEqualTI m1x (l1 ++ l2) := by
      intro k2
      by_cases hk2 : k2 = k
      · subst hk2
        rw [lookupTI_none_iff.2 hkm1, lookupTI_none_iff.2 ?side]
        case side =>
          rw [keysTI_append]
          simp [hkl1, hkl2]
      · have hlk := he k2
        rw [lookupTI_cons_ne (fun hh => hk2 hh.symm)] at hlk
        rw [hlk, lookupTI_middle_ne hk2]
    have hperm := ih (l1 ++ l2) h1x h2x he2
    exact List.Perm.trans (hperm.cons (k, v)) List.perm_middle.symm

/-! ## The write and read round trip -/

theorem exact_no_eqchar {r : DockerImageReference} (h : wellFormedRef r = true) :
    ∀ x ∈ r.exact, x ≠ '=' := by
  obtain ⟨hr1, hr2, hr3, hns, hn1, hn2, ht, hid⟩ := wf_unpack h
  exact exact_all (fun x hx => (hostChar_facts (hr2 x hx)).2.2.1)
    (fun x hx => (plainChar_facts (hns x hx)).2.2.2.1)
    (fun x hx => (plainChar_facts (hn2 x hx)).2.2.2.1)
    (fun x hx => (plainChar_facts (ht x hx)).2.2.2.1)
    (fun x hx => (hostChar_facts (hid x hx)).2.2.1)
    (by decide) (by decide) (by decide)

theorem exact_no_ws {r : DockerImageReference} (h : wellFormedRef r = true) :
    ∀ x ∈ r.exact, isWs x = false := by
  obtain ⟨hr1, hr2, hr3, hns, hn1, hn2, ht, hid⟩ := wf_unpack h
  exact exact_all (fun x hx => (hostChar_facts (hr2 x hx)).2.2.2)
    (fun x hx => (plainChar_facts (hns x hx)).2.2.2.2)
    (fun x hx => (plainChar_facts (hn2 x hx)).2.2.2.2)
    (fun x hx => (plainChar_facts (ht x hx)).2.2.2.2)
    (fun x hx => (hostChar_facts (hid x hx)).2.2.2)
    (by decide) (by decide) (by decide)

/-- An entry of a typed mapping that the write and read pipeline preserves
exactly: both categories are the read category, both destination types are
registry, and both references are well-formed. -/
def goodEntry (cat : ImageType) (e : TypedImage × TypedImage) : Prop :=
  e.1.category = cat ∧ e.2.category = cat
    ∧ e.1.tir.dtype = .registry ∧ e.2.tir.dtype = .registry
    ∧ wellFormedRef e.1.tir.ref = true ∧ wellFormedRef e.2.tir.ref = true

instance (cat : ImageType) (e : TypedImage × TypedImage) : Decidable (goodEntry cat e) := by
  unfold goodEntry
  infer_instance

theorem parseTypedImage_exact (cat : ImageType) (t : TypedImage)
    (hc : t.category = cat) (hd : t.tir.dtype = .registry)
    (hw : wellFormedRef t.tir.ref = true) :
    parseTypedImage t.tir.ref.exact cat = .ok t := by
  unfold parseTypedImage parseReference
  rw [parseDockerRef_exact t.tir.ref hw]
  simp only [Except.map]
  obtain ⟨⟨r, d⟩, c⟩ := t
  simp only at hc hd
  rw [hc, hd]

theorem readLoop_write (cat : ImageType) (m : TypedImageMapping) :
    ∀ acc : TypedImageMapping,
    (∀ e ∈ m, goodEntry cat e) →
    (∀ e ∈ m, lookupTI acc e.1 = none) →
    (keysTI m).Nodup →
    readImageMappingLoop '=' cat (writeImageMapping m) acc = .ok (acc ++ m) := by
  induction m with
  | nil => intro acc _ _ _; simp [writeImageMapping, readImageMappingLoop]
  | cons e rest ih =>
    intro acc hgood hfresh hnd
    obtain ⟨k, v⟩ := e
    have hg := hgood (k, v) (by simp)
    obtain ⟨hc1, hc2, hd1, hd2, hw1, hw2⟩ := hg
    have hsplit : splitOnChar '=' (k.tir.ref.exact ++ '=' :: v.tir.ref.exact)
        = [k.tir.ref.exact, v.tir.ref.exact] :=
      splitOnChar_two '=' _ _ (exact_no_eqchar hw1) (exact_no_eqchar hw2)
    have htrim1 : trimSpace k.tir.ref.exact = k.tir.ref.exact :=
      trimSpace_no_ws _ (exact_no_ws hw1)
    have htrim2 : trimSpace v.tir.ref.exact = v.tir.ref.exact :=
      trimSpace_no_ws _ (exact_no_ws hw2)
    have hk1 : (k :: keysTI rest).Nodup := hnd
    have hkm : k ∉ keysTI rest := (List.nodup_cons.1 hk1).1
    show readImageMappingLoop '=' cat
        ((k.tir.ref.exact ++ '=' :: v.tir.ref.exact) :: writeImageMapping rest) acc
        = .ok (acc ++ (k, v) :: rest)
    rw [readImageMappingLoop, hsplit]
    simp only [htrim1, htrim2,
      parseTypedImage_exact cat k hc1 hd1 hw1, parseTypedImage_exact cat v hc2 hd2 hw2]
    rw [insertTI_fresh (hfresh (k, v) (by simp))]
    rw [ih (acc ++ [(k, v)])
      (fun e2 he2 => hgood e2 (List.mem_cons_of_mem _ he2))
      ?fresh ((List.nodup_cons.1 hk1).2)]
    · rw [List.append_assoc]
      rfl
    case fresh =>
      intro e2 he2
      have hne : k ≠ e2.1 := fun hh => hkm (hh ▸ List.mem_map_of_mem Prod.fst he2)
      rw [lookupTI_append_none (hfresh e2 (List.mem_cons_of_mem _ he2))]
      simp [lookupTI, hne]

/-- Writing a mapping whose entries are all good for the category and reading
the file back yields the same association list. -/
theorem read_write_round (cat : ImageType) (m : TypedImageMapping)
    (hgood : ∀ e ∈ m, goodEntry cat e) (hnd : (keysTI m).Nodup) :
    readImageMapping (writeImageMapping m) '=' cat = .ok m := by
  unfold readImageMapping
  rw [readLoop_write cat m [] hgood (fun e _ => rfl) hnd]
  rfl

instance exceptDecEq {e a : Type} [DecidableEq e] [DecidableEq a] :
    DecidableEq (Except e a) := fun x y =>
  match x, y with
  | .ok x1, .ok y1 =>
    if h : x1 = y1 then isTrue (congrArg Except.ok h)
    else isFalse (fun hh => h (Except.ok.inj hh))
  | .error x1, .error y1 =>
    if h : x1 = y1 then isTrue (congrArg Except.error h)
    else isFalse (fun hh => h (Except.error.inj hh))
  | .ok _, .error _ => isFalse (fun hh => Except.noConfusion hh)
  | .error _, .ok _ => isFalse (fun hh => Except.noConfusion hh)

/-! ## Concrete references for witnesses and counterexamples -/

def refA : DockerImageReference :=
  ⟨("quay.io").data, ("ns1").data, ("app").data, ("v1").data, []⟩

def refB : DockerImageReference :=
  ⟨("myreg.io").data, ("mirror").data, ("app").data, ("v1").data, []⟩

def refC : DockerImageReference :=
  ⟨("quay.io").data, ("ns2").data, ("tool").data, [], ("sha256:ab12").data⟩

def refD : DockerImageReference :=
  ⟨("myreg.io").data, ("mirror").data, ("tool").data, [], ("sha256:ab12").data⟩

def tiOf (r : DockerImageReference) (cat : ImageType) : TypedImage :=
  ⟨⟨r, .registry⟩, cat⟩

/-! ## C2: write and read round trip of a typed image mapping -/

/-- A mapping with one entry whose key category is not the read category. -/
def mapC2 : TypedImageMapping :=
  [(tiOf refA .typeOperatorBundle, tiOf refB .typeGeneric)]

/-- C2 counterexample: reading back a written mapping assigns the read category
to every key, so a mapping holding an entry under a different category is not
recovered: the claim fails at this input. -/
theorem C2_counterexample :
    ¬ ∃ m2, readImageMapping (writeImageMapping mapC2) '=' ImageType.typeGeneric = .ok m2
        ∧ mapsEqualTI m2 mapC2 := by
  rintro ⟨m2, hok, heq⟩
  have hcomp : readImageMapping (writeImageMapping mapC2) '=' ImageType.typeGeneric
      = .ok [(tiOf refA .typeGeneric, tiOf refB .typeGeneric)] := by decide
  rw [hcomp] at hok
  have hm2 := Except.ok.inj hok
  subst hm2
  have hkey := heq (tiOf refA .typeOperatorBundle)
  revert hkey
  decide

/-- C2 (amended): for a typed image mapping whose keys and values all carry the
read category and registry-type well-formed references, with no duplicate keys,
WriteImageMapping followed by ReadImageMapping with separator equals and that
category returns exactly the original mapping. -/
theorem C2_roundTrip (cat : ImageType) (m : TypedImageMapping)
    (hgood : ∀ e ∈ m, goodEntry cat e) (hnd : (keysTI m).Nodup) :
    readImageMapping (writeImageMapping m) '=' cat = .ok m :=
  read_write_round cat m hgood hnd

def mapGood : TypedImageMapping :=
  [(tiOf refA .typeGeneric, tiOf refB .typeGeneric),
   (tiOf refC .typeGeneric, tiOf refD .typeGeneric)]

theorem C2_roundTrip_witness :
    (∀ e ∈ mapGood, goodEntry ImageType.typeGeneric e) ∧ (keysTI mapGood).Nodup
      ∧ readImageMapping (writeImageMapping mapGood) '=' ImageType.typeGeneric
          = .ok mapGood :=
  ⟨by decide, by decide, C2_roundTrip ImageType.typeGeneric mapGood (by decide) (by decide)⟩

/-! ## C4: determinism of WriteImageMapping -/

theorem pair_swap_mapsEqual (a b : TypedImage × TypedImage) (h : a.1 ≠ b.1) :
    mapsEqualTI [a, b] [b, a] := by
  obtain ⟨ka, va⟩ := a
  obtain ⟨kb, vb⟩ := b
  simp only at h
  intro k
  by_cases h1 : ka = k
  · subst h1
    rw [lookupTI_cons_self, lookupTI_cons_ne (fun hh => h hh.symm), lookupTI_cons_self]
  · rw [lookupTI_cons_ne h1]
    by_cases h2 : kb = k
    · subst h2
      rw [lookupTI_cons_self, lookupTI_cons_self]
    · rw [lookupTI_cons_ne h2, lookupTI_cons_ne h2, lookupTI_cons_ne h1]

def mapO1 : TypedImageMapping :=
  [(tiOf refA .typeGeneric, tiOf refB .typeGeneric),
   (tiOf refC .typeGeneric, tiOf refD .typeGeneric)]

def mapO2 : TypedImageMapping :=
  [(tiOf refC .typeGeneric, tiOf refD .typeGeneric),
   (tiOf refA .typeGeneric, tiOf refB .typeGeneric)]

/-- C4 counterexample: WriteImageMapping iterates the Go map in its iteration
order, which is not sorted; two equal maps (association lists that are
permutations of each other) produce different byte sequences. -/
theorem C4_counterexample :
    mapsEqualTI mapO1 mapO2 ∧ writeImageMapping mapO1 ≠ writeImageMapping mapO2 :=
  ⟨pair_swap_mapsEqual _ _ (by decide), by decide⟩

/-- C4 (amended): WriteImageMapping writes exactly one line per entry and the
multiset of lines depends only on the map contents: on equal mappings the two
files are permutations of each other, though not necessarily byte-identical. -/
theorem C4_write_deterministic_up_to_order (m1 m2 : TypedImageMapping)
    (h1 : (keysTI m1).Nodup) (h2 : (keysTI m2).Nodup) (he : mapsEqualTI m1 m2) :
    (writeImageMapping m1).Perm (writeImageMapping m2)
      ∧ (writeImageMapping m1).length = m1.length :=
  ⟨(assoc_perm m1 m2 h1 h2 he).map _, by simp [writeImageMapping]⟩

theorem C4_witness :
    (keysTI mapO1).Nodup ∧ (keysTI mapO2).Nodup
      ∧ (writeImageMapping mapO1).Perm (writeImageMapping mapO2)
      ∧ (writeImageMapping mapO1).length = mapO1.length :=
  ⟨by decide, by decide,
    C4_write_deterministic_up_to_order mapO1 mapO2 (by decide) (by decide)
      (pair_swap_mapsEqual _ _ (by decide))⟩

/-! ## C7: error behavior of ReadImageMapping -/

def isErr {e a : Type} : Except e a → Bool
  | .error _ => true
  | .ok _ => false

/-- A line the read loop accepts: splits into exactly two pieces and both
pieces parse. -/
def lineOk (sep : Char) (typ : ImageType) (l : Str) : Bool :=
  match splitOnChar sep l with
  | [a, b] =>
    (parseTypedImage (trimSpace a) typ).isOk && (parseTypedImage (trimSpace b) typ).isOk
  | _ => false

theorem except_isOk_exists {e a : Type} {x : Except e a} (h : x.isOk = true) :
    ∃ v, x = .ok v := by
  cases x with
  | error e2 => simp [Except.isOk, Except.toBool] at h
  | ok v => exact ⟨v, rfl⟩

theorem lineOk_spec {sep : Char} {typ : ImageType} {l : Str} (h : lineOk sep typ l = true) :
    ∃ a b src dst, splitOnChar sep l = [a, b]
      ∧ parseTypedImage (trimSpace a) typ = .ok src
      ∧ parseTypedImage (trimSpace b) typ = .ok dst := by
  unfold lineOk at h
  rcases hs : splitOnChar sep l with _ | ⟨a, _ | ⟨b, _ | ⟨c, tail⟩⟩⟩ <;> rw [hs] at h
  · simp at h
  · simp at h
  · rw [Bool.and_eq_true] at h
    obtain ⟨src, hsrc⟩ := except_isOk_exists h.1
    obtain ⟨dst, hdst⟩ := except_isOk_exists h.2
    exact ⟨a, b, src, dst, rfl, hsrc, hdst⟩
  · simp at h

theorem readLoop_malformed_head {sep : Char} {typ : ImageType} {l : Str}
    (hlen : (splitOnChar sep l).length ≠ 2) (post : List Str) (acc : TypedImageMapping) :
    readImageMappingLoop sep typ (l :: post) acc = .error (.malformedLine l) := by
  rcases hs : splitOnChar sep l with _ | ⟨a, _ | ⟨b, _ | ⟨c, tail⟩⟩⟩
  · rw [readImageMappingLoop, hs]
  · rw [readImageMappingLoop, hs]
  · exact absurd (by rw [hs]; rfl) hlen
  · rw [readImageMappingLoop, hs]

theorem readLoop_ok_head {sep : Char} {typ : ImageType} {l : Str}
    (h : lineOk sep typ l = true) (rest : List Str) (acc : TypedImageMapping) :
    ∃ acc2, readImageMappingLoop sep typ (l :: rest) acc
      = readImageMappingLoop sep typ rest acc2 := by
  obtain ⟨a, b, src, dst, hs, hsrc, hdst⟩ := lineOk_spec h
  refine ⟨insertTI acc src dst, ?_⟩
  rw [readImageMappingLoop, hs]
  simp only [hsrc, hdst]

theorem readLoop_err_head {sep : Char} {typ : ImageType} {l : Str}
    (hlen : (splitOnChar sep l).length = 2) (h : lineOk sep typ l = false)
    (rest : List Str) (acc : TypedImageMapping) :
    isErr (readImageMappingLoop sep typ (l :: rest) acc) = true := by
  rcases hs : splitOnChar sep l with _ | ⟨a, _ | ⟨b, _ | ⟨c, tail⟩⟩⟩
  · rw [hs] at hlen; simp at hlen
  · rw [hs] at hlen; simp at hlen
  · unfold lineOk at h
    rw [hs] at h
    have h2 : ((parseTypedImage (trimSpace a) typ).isOk
        && (parseTypedImage (trimSpace b) typ).isOk) = false := h
    rw [readImageMappingLoop, hs]
    rcases hsrc : parseTypedImage (trimSpace a) typ with e1 | src
    · simp [hsrc, isErr]
    · rcases hdst : parseTypedImage (trimSpace b) typ with e2 | dst
      · simp [hsrc, hdst, isErr]
      · rw [hsrc, hdst] at h2
        simp [Except.isOk, Except.toBool] at h2
  · rw [hs] at hlen; simp at hlen

theorem readLoop_err_of_malformed {sep : Char} {typ : ImageType} (fileLines : List Str) :
    ∀ acc : TypedImageMapping, (∃ l ∈ fileLines, (splitOnChar sep l).length ≠ 2) →
    isErr (readImageMappingLoop sep typ fileLines acc) = true := by
  induction fileLines with
  | nil => intro acc h; simp at h
  | cons l2 rest ih =>
    intro acc h
    by_cases hlen : (splitOnChar sep l2).length = 2
    · by_cases hok : lineOk sep typ l2 = true
      · obtain ⟨acc2, hstep⟩ := readLoop_ok_head hok rest acc
        rw [hstep]
        apply ih acc2
        obtain ⟨l, hl, hlbad⟩ := h
        rcases List.mem_cons.1 hl with hl2 | hl2
        · exact absurd hlen (hl2 ▸ hlbad)
        · exact ⟨l, hl2, hlbad⟩
      · exact readLoop_err_head hlen (by simpa using hok) rest acc
    · rw [readLoop_malformed_head hlen rest acc]
      rfl

theorem readLoop_first_malformed {sep : Char} {typ : ImageType} {l : Str}
    (hlen : (splitOnChar sep l).length ≠ 2) (post : List Str) (pre : List Str) :
    ∀ acc : TypedImageMapping, (∀ l2 ∈ pre, lineOk sep typ l2 = true) →
    readImageMappingLoop sep typ (pre ++ l :: post) acc = .error (.malformedLine l) := by
  induction pre with
  | nil => intro acc _; exact readLoop_malformed_head hlen post acc
  | cons l2 rest ih =>
    intro acc hok
    obtain ⟨acc2, hstep⟩ := readLoop_ok_head (hok l2 (by simp)) (rest ++ l :: post) acc
    rw [List.cons_append, hstep]
    exact ih acc2 (fun l3 h3 => hok l3 (List.mem_cons_of_mem _ h3))

/-- C7 (amended): ReadImageMapping fails on any file containing a line that
does not split on the separator into exactly two pieces; the error is the
MalformedMapping error whenever every earlier line is accepted (in particular
when the malformed line comes first); a reference-parse failure on an earlier
line takes precedence. An empty file yields the empty mapping, not an error. -/
theorem C7_malformed_lines (sep : Char) (typ : ImageType) :
    (∀ fileLines : List Str, (∃ l ∈ fileLines, (splitOnChar sep l).length ≠ 2) →
      isErr (readImageMapping fileLines sep typ) = true)
    ∧ (∀ (pre post : List Str) (l : Str), (splitOnChar sep l).length ≠ 2 →
      (∀ l2 ∈ pre, lineOk sep typ l2 = true) →
      readImageMapping (pre ++ l :: post) sep typ = .error (.malformedLine l))
    ∧ readImageMapping [] sep typ = .ok [] := by
  refine ⟨?_, ?_, rfl⟩
  · intro fileLines h
    exact readLoop_err_of_malformed fileLines [] h
  · intro pre post l hlen hok
    exact readLoop_first_malformed hlen post pre [] hok

/-- The blank line: it splits into one piece, not two. -/
def blankLine : Str := []

theorem C7_malformed_lines_witness :
    readImageMapping [blankLine] '=' ImageType.typeGeneric
        = .error (.malformedLine blankLine)
      ∧ readImageMapping [] '=' ImageType.typeGeneric = .ok [] := by
  have h := C7_malformed_lines '=' ImageType.typeGeneric
  exact ⟨h.2.1 [] [] blankLine (by decide) (by intro l2 h2; simp at h2), h.2.2⟩

def lineHashes : Str := ("##=##").data

def fileC7 : List Str := [lineHashes, blankLine]

/-- C7 counterexample: a file whose first line splits correctly but carries a
reference the parser rejects, followed by a blank line. The read returns the
parse error, not the MalformedMapping error the claim demands for any file
containing a non-splitting line. -/
theorem C7_counterexample :
    (∃ l ∈ fileC7, (splitOnChar '=' l).length ≠ 2)
      ∧ ∀ l2 : Str, readImageMapping fileC7 '=' ImageType.typeGeneric
          ≠ .error (.malformedLine l2) := by
  constructor
  · exact ⟨blankLine, by decide, by decide⟩
  · intro l2 h
    have hcomp : readImageMapping fileC7 '=' ImageType.typeGeneric
        = .error (.invalidRef (("##").data)) := by decide
    rw [hcomp] at h
    have h3 := Except.error.inj h
    exact MapErr.noConfusion h3

/-! ## copy.go: trimProtocol and parseImageName -/

/-- trimProtocol removes an oci, file or docker protocol marker and a leading
double slash from the image name (matching the Go TrimPrefix chain). -/
def trimProtocol (imageName : Str) : Str :=
  let s1 := trimLead (("oci:").data) imageName
  let s2 := trimLead (("file:").data) s1
  let s3 := trimLead (("docker:").data) s2
  trimLead (("//").data) s3

/-- Result of parseImageName: registry, organisation, repository, tag, digest. -/
structure ParsedImageName where
  registry : Str
  org : Str
  repo : Str
  tag : Str
  sha : Str
deriving DecidableEq

/-- parseImageName splits an image name into registry, organisation,
repository, tag and digest, following the source line by line: trim the
protocol and outer slashes, split on slash, take the first segment as the
registry, join the middle segments as the organisation, and split the last
segment on colon and at-sign for tag and digest. -/
def parseImageName (imageName : Str) : ParsedImageName :=
  let s0 := trimProtocol imageName
  let s1 := trimLead ['/'] s0
  let s2 := trimTail ['/'] s1
  let tmp := splitOnChar '/' s2
  let registry := tmp.headD []
  let img := splitOnChar ':' (tmp.getLastD [])
  let org := if tmp.length > 2 then intercalateChar '/' ((tmp.drop 1).dropLast) else []
  let img0 := img.headD []
  let img1 := (img.drop 1).headD []
  if img.length > 1 then
    if img0.contains '@' then
      ⟨registry, org, (splitOnChar '@' img0).headD [], [], img1⟩
    else
      ⟨registry, org, img0, img1, []⟩
  else
    ⟨registry, org, img0, [], []⟩

theorem isLead_single_not_mem {c : Char} {l : Str} (h : c ∉ l) : isLead [c] l = false := by
  cases l with
  | nil => rfl
  | cons x xs =>
    have hcx : c ≠ x := fun hh => h (by simp [hh])
    simp [isLead, hcx]

theorem trimLead_single_not_mem {c : Char} {l : Str} (h : c ∉ l) : trimLead [c] l = l := by
  unfold trimLead
  rw [isLead_single_not_mem h]
  simp

theorem trimTail_single_not_mem {c : Char} {l : Str} (h : c ∉ l) : trimTail [c] l = l := by
  unfold trimTail
  have h2 : isLead (List.reverse [c]) l.reverse = false := by
    rw [show List.reverse [c] = [c] from rfl]
    exact isLead_single_not_mem (by simpa using h)
  rw [h2]
  simp

/-- C8 (amended): parseImageName on a single path component free of colons
returns the component as both registry and repository, with namespace, tag and
digest empty. -/
theorem C8_parseImageName_single (s : Str)
    (hs : '/' ∉ trimProtocol s) (hc : ':' ∉ trimProtocol s) :
    parseImageName s = ⟨trimProtocol s, [], trimProtocol s, [], []⟩ := by
  have hns : ∀ x ∈ trimProtocol s, x ≠ '/' := fun x hx hh => hs (hh ▸ hx)
  have hnc : ∀ x ∈ trimProtocol s, x ≠ ':' := fun x hx hh => hc (hh ▸ hx)
  simp only [parseImageName]
  rw [trimLead_single_not_mem hs, trimTail_single_not_mem hs,
    splitOnChar_no_sep '/' _ hns]
  rw [show ([trimProtocol s].getLastD []) = trimProtocol s from rfl]
  rw [splitOnChar_no_sep ':' _ hnc]
  simp

def compLocalhostPort : Str := ("localhost:5000").data

/-- C8 counterexample: a single path component containing a colon is split
into repository and tag; the registry keeps the colon while the repository
drops it, and the tag is not empty, contradicting the claim. -/
theorem C8_counterexample :
    ('/' ∉ trimProtocol compLocalhostPort)
      ∧ parseImageName compLocalhostPort
          = ⟨("localhost:5000").data, [], ("localhost").data, ("5000").data, []⟩
      ∧ (parseImageName compLocalhostPort).tag ≠ []
      ∧ (parseImageName compLocalhostPort).registry
          ≠ (parseImageName compLocalhostPort).repo := by
  refine ⟨by decide, by decide, by decide, by decide⟩

def compUbi : Str := ("ubi8").data

theorem C8_witness :
    ('/' ∉ trimProtocol compUbi) ∧ (':' ∉ trimProtocol compUbi)
      ∧ parseImageName compUbi = ⟨compUbi, [], compUbi, [], []⟩ :=
  ⟨by decide, by decide, C8_parseImageName_single compUbi (by decide) (by decide)⟩

/-! ## Semantic versions (the blang semver library used by copy.go) -/

/-- A pre-release identifier: numeric or alphanumeric. -/
inductive PRVersion where
  | num (n : Nat)
  | alnum (s : Str)
deriving DecidableEq

/-- Modelled from the spec: a parsed semantic version as used by the version
filtering of the catalog extractor (the semver library is an external
collaborator). Build metadata is parsed and validated but ignored by
comparison. -/
structure SemVer where
  major : Nat
  minor : Nat
  patch : Nat
  pre : List PRVersion
  build : List Str
deriving DecidableEq

def parseNatStr (l : Str) : Option Nat :=
  if l.isEmpty then none
  else if l.all Char.isDigit then
    some (l.foldl (fun acc ch => acc * 10 + (ch.toNat - 48)) 0)
  else none

def hasLeadingZeroes (l : Str) : Bool := l.length > 1 && l.headD ' ' == '0'

/-- Major, minor and patch: digits only, no leading zeroes. -/
def parseNumPart (l : Str) : Option Nat :=
  if l.all Char.isDigit then
    if hasLeadingZeroes l then none else parseNatStr l
  else none

def isAlnumCh (ch : Char) : Bool := ch.isAlpha || ch.isDigit || ch == '-'

/-- A pre-release identifier: nonempty, numeric without leading zeroes or
alphanumeric. -/
def newPRVersion (s : Str) : Option PRVersion :=
  if s.isEmpty then none
  else if s.all Char.isDigit then
    if hasLeadingZeroes s then none
    else (parseNatStr s).map PRVersion.num
  else if s.all isAlnumCh then some (.alnum s)
  else none

def parseBuildPart (s : Str) : Bool := !s.isEmpty && s.all isAlnumCh

/-- Break a string at the first occurrence of a character, if any. -/
def breakAtFirst (c : Char) : Str → Option (Str × Str)
  | [] => none
  | x :: xs =>
    if x = c then some ([], xs)
    else (breakAtFirst c xs).map (fun p => (x :: p.1, p.2))

/-- Go strings.SplitN with n = 3: at most three pieces, remainder kept whole. -/
def splitN3 (c : Char) (l : Str) : List Str :=
  match breakAtFirst c l with
  | none => [l]
  | some (a, rest) =>
    match breakAtFirst c rest with
    | none => [a, rest]
    | some (b, rest2) => [a, b, rest2]

/-- semver.Make: three dot-separated numeric parts, then build metadata after
the first plus sign, then pre-release identifiers after the first hyphen. -/
def semverMake (s : Str) : Option SemVer :=
  if s.isEmpty then none
  else
    match splitN3 '.' s with
    | [p0, p1, rest] =>
      match parseNumPart p0, parseNumPart p1 with
      | some major, some minor =>
        let bsplit :=
          match breakAtFirst '+' rest with
          | none => (rest, ([] : List Str))
          | some (ps, bs) => (ps, splitOnChar '.' bs)
        let psplit :=
          match breakAtFirst '-' bsplit.1 with
          | none => (bsplit.1, ([] : List Str))
          | some (ps, prs) => (ps, splitOnChar '.' prs)
        match parseNumPart psplit.1 with
        | some patch =>
          match psplit.2.mapM newPRVersion with
          | some pre =>
            if bsplit.2.all parseBuildPart then some ⟨major, minor, patch, pre, bsplit.2⟩
            else none
          | none => none
        | none => none
      | _, _ => none
    | _ => none

def compareStr : Str → Str → Ordering
  | [], [] => .eq
  | [], _ :: _ => .lt
  | _ :: _, [] => .gt
  | x :: xs, y :: ys =>
    match compare x.val y.val with
    | .eq => compareStr xs ys
    | o => o

def prCompare : PRVersion → PRVersion → Ordering
  | .num a, .num b => compare a b
  | .num _, .alnum _ => .lt
  | .alnum _, .num _ => .gt
  | .alnum a, .alnum b => compareStr a b

def preListCompare : List PRVersion → List PRVersion → Ordering
  | [], [] => .eq
  | [], _ :: _ => .lt
  | _ :: _, [] => .gt
  | x :: xs, y :: ys =>
    match prCompare x y with
    | .eq => preListCompare xs ys
    | o => o

/-- semver Compare: numeric triple, then pre-release precedence (a version
without pre-release identifiers is higher); build metadata is ignored. -/
def verCompare (v o : SemVer) : Ordering :=
  match compare v.major o.major with
  | .eq =>
    match compare v.minor o.minor with
    | .eq =>
      match compare v.patch o.patch with
      | .eq =>
        if v.pre.isEmpty && o.pre.isEmpty then .eq
        else if v.pre.isEmpty then .gt
        else if o.pre.isEmpty then .lt
        else preListCompare v.pre o.pre
      | o2 => o2
    | o2 => o2
  | o2 => o2

/-- Compare against the selector minimum is at least zero. -/
def cmpGE (a b : SemVer) : Bool := verCompare a b ≠ Ordering.lt

/-- Compare against the selector maximum is at most zero. -/
def cmpLE (a b : SemVer) : Bool := verCompare a b ≠ Ordering.gt

/-! ## Declarative config model (operator-framework, as consumed by copy.go) -/

structure RelatedImage where
  name : Str
  image : Str
deriving DecidableEq

/-- A bundle property: its type string and, for package properties, the result
of unmarshalling its JSON value: none models malformed JSON, some the version
field of the unmarshalled package (possibly empty). -/
structure BundleProperty where
  ptype : Str
  version : Option Str
deriving DecidableEq

structure Bundle where
  package : Str
  image : Str
  properties : List BundleProperty
  relatedImages : List RelatedImage
deriving DecidableEq

structure Channel where
  name : Str
  pkg : Str
deriving DecidableEq

structure DeclarativeConfig where
  bundles : List Bundle
  channels : List Channel
deriving DecidableEq

structure IncludePackage where
  name : Str
  minVersion : Str
  maxVersion : Str
deriving DecidableEq

def typePackageStr : Str := ("olm.package").data

inductive CatErr where
  | noVersion
  | badJson
  | badSemver
deriving DecidableEq

/-- bundleVersion: the version of the first olm.package property, an error when
no such property exists or its value does not unmarshal. -/
def bundleVersion (bundle : Bundle) : Except CatErr Str :=
  match bundle.properties.find? (fun p => p.ptype == typePackageStr) with
  | some p =>
    match p.version with
    | some v => .ok v
    | none => .error .badJson
  | none => .error .noVersion

def zeroSemVer : SemVer := ⟨0, 0, 0, [], []⟩

/-- The selector loop of isPackageSelected: the selected flag latches across
selectors; a selector with a version bound parses the bundle version and the
bounds, any parse failure aborts. -/
def isPackageSelectedLoop (bundle : Bundle) :
    List IncludePackage → Bool → Except CatErr Bool
  | [], acc => .ok acc
  | pkg :: rest, acc =>
    if pkg.name == bundle.package then
      if !pkg.minVersion.isEmpty || !pkg.maxVersion.isEmpty then
        match bundleVersion bundle with
        | .error e => .error e
        | .ok versionString =>
          match semverMake versionString with
          | none => .error .badSemver
          | some pkgVer =>
            match (if pkg.minVersion.isEmpty then some zeroSemVer
                   else semverMake pkg.minVersion) with
            | none => .error .badSemver
            | some minV =>
              match (if pkg.maxVersion.isEmpty then some zeroSemVer
                     else semverMake pkg.maxVersion) with
              | none => .error .badSemver
              | some maxV =>
                let cond :=
                  (!pkg.minVersion.isEmpty && !pkg.maxVersion.isEmpty
                      && cmpGE pkgVer minV && cmpLE pkgVer maxV)
                    || (!pkg.minVersion.isEmpty && pkg.maxVersion.isEmpty
                      && cmpGE pkgVer minV)
                    || (!pkg.maxVersion.isEmpty && pkg.minVersion.isEmpty
                      && cmpLE pkgVer maxV)
                isPackageSelectedLoop bundle rest (acc || cond)
      else
        isPackageSelectedLoop bundle rest true
    else
      isPackageSelectedLoop bundle rest acc

/-- isPackageSelected: the channels parameter is accepted and ignored, exactly
as in the source. -/
def isPackageSelected (bundle : Bundle) (channels : List Channel)
    (packages : List IncludePackage) : Except CatErr Bool :=
  isPackageSelectedLoop bundle packages false

def getRelatedLoop (channels : List Channel) (packages : List IncludePackage) :
    List Bundle → List RelatedImage → Except CatErr (List RelatedImage)
  | [], acc => .ok acc
  | b :: rest, acc =>
    match isPackageSelected b channels packages with
    | .error e => .error e
    | .ok true =>
      getRelatedLoop channels packages rest
        (acc ++ (⟨b.package, b.image⟩ :: b.relatedImages))
    | .ok false => getRelatedLoop channels packages rest acc

/-- Deduplication by image string, preserving first-seen order. -/
def dedupImages : List RelatedImage → List RelatedImage → List RelatedImage
  | [], acc => acc
  | i :: rest, acc =>
    if acc.any (fun j => j.image == i.image) then dedupImages rest acc
    else dedupImages rest (acc ++ [i])

/-- getRelatedImages over an already loaded declarative config (LoadFS is disk
input and is out of the model): selected bundles contribute their own name and
image plus their related images, deduplicated by image. -/
def getRelatedImages (cfg : DeclarativeConfig) (packages : List IncludePackage) :
    Except CatErr (List RelatedImage) :=
  match getRelatedLoop cfg.channels packages cfg.bundles [] with
  | .error e => .error e
  | .ok allImages => .ok (dedupImages allImages [])

/-! ## C6: version filtering of isPackageSelected -/

/-- C6: for a selector naming the bundle package, inclusion follows the
selector bounds exactly: with both bounds, between them inclusively; with only
a minimum, at least it; with only a maximum, at most it; with neither, always.
Comparisons are semver comparisons via verCompare. -/
theorem C6_version_filter (bundle : Bundle) (ch : List Channel) (sel : IncludePackage)
    (hname : sel.name = bundle.package) :
    (sel.minVersion = [] ∧ sel.maxVersion = [] →
      isPackageSelected bundle ch [sel] = .ok true)
    ∧ (∀ vs ver minv maxv, sel.minVersion ≠ [] → sel.maxVersion ≠ [] →
        bundleVersion bundle = .ok vs → semverMake vs = some ver →
        semverMake sel.minVersion = some minv → semverMake sel.maxVersion = some maxv →
        isPackageSelected bundle ch [sel] = .ok (cmpGE ver minv && cmpLE ver maxv))
    ∧ (∀ vs ver minv, sel.minVersion ≠ [] → sel.maxVersion = [] →
        bundleVersion bundle = .ok vs → semverMake vs = some ver →
        semverMake sel.minVersion = some minv →
        isPackageSelected bundle ch [sel] = .ok (cmpGE ver minv))
    ∧ (∀ vs ver maxv, sel.minVersion = [] → sel.maxVersion ≠ [] →
        bundleVersion bundle = .ok vs → semverMake vs = some ver →
        semverMake sel.maxVersion = some maxv →
        isPackageSelected bundle ch [sel] = .ok (cmpLE ver maxv)) := by
  refine ⟨?_, ?_, ?_, ?_⟩
  · rintro ⟨hmin, hmax⟩
    simp [isPackageSelected, isPackageSelectedLoop, hname, hmin, hmax]
  · intro vs ver minv maxv hmin hmax hbv hver hminv hmaxv
    have hminE : sel.minVersion.isEmpty = false := isEmpty_false_of_ne hmin
    have hmaxE : sel.maxVersion.isEmpty = false := isEmpty_false_of_ne hmax
    simp [isPackageSelected, isPackageSelectedLoop, hname, hminE, hmaxE,
      hbv, hver, hminv, hmaxv]
  · intro vs ver minv hmin hmax hbv hver hminv
    have hminE : sel.minVersion.isEmpty = false := isEmpty_false_of_ne hmin
    simp [isPackageSelected, isPackageSelectedLoop, hname, hminE, hmax,
      hbv, hver, hminv]
  · intro vs ver maxv hmin hmax hbv hver hmaxv
    have hmaxE : sel.maxVersion.isEmpty = false := isEmpty_false_of_ne hmax
    simp [isPackageSelected, isPackageSelectedLoop, hname, hmin, hmaxE,
      hbv, hver, hmaxv]

def bundleW : Bundle :=
  ⟨("pkgw").data, ("quay.io/w/img:v1").data,
    [⟨("olm.package").data, some (("1.2.3").data)⟩], []⟩

def selW : IncludePackage := ⟨("pkgw").data, ("1.0.0").data, ("2.0.0").data⟩

theorem C6_version_filter_witness :
    selW.name = bundleW.package
      ∧ isPackageSelected bundleW [] [selW] = .ok true := by
  refine ⟨by decide, ?_⟩
  have h := (C6_version_filter bundleW [] selW (by decide)).2.1
    (("1.2.3").data) ⟨1, 2, 3, [], []⟩ ⟨1, 0, 0, [], []⟩ ⟨2, 0, 0, [], []⟩
    (by decide) (by decide) (by decide) (by decide) (by decide) (by decide)
  rw [h]
  decide

/-! ## C9: independence of related image selection from channels -/

theorem selLoop_congr (b1 b2 : Bundle) (h1 : b1.package = b2.package)
    (h2 : bundleVersion b1 = bundleVersion b2) :
    ∀ (pkgs : List IncludePackage) (acc : Bool),
      isPackageSelectedLoop b1 pkgs acc = isPackageSelectedLoop b2 pkgs acc := by
  intro pkgs
  induction pkgs with
  | nil => intro acc; rfl
  | cons pkg rest ih =>
    intro acc
    simp only [isPackageSelectedLoop, h1, h2]
    by_cases hn : (pkg.name == b2.package) = true
    · simp only [hn, if_true]
      by_cases hv : (!pkg.minVersion.isEmpty || !pkg.maxVersion.isEmpty) = true
      · simp only [hv, if_true]
        rcases hbv : bundleVersion b2 with e | vs
        · rfl
        · simp only []
          rcases hsm : semverMake vs with _ | pkgVer
          · rfl
          · simp only []
            rcases hminr : (if pkg.minVersion.isEmpty then some zeroSemVer
                else semverMake pkg.minVersion) with _ | minV
            · rfl
            · simp only []
              rcases hmaxr : (if pkg.maxVersion.isEmpty then some zeroSemVer
                  else semverMake pkg.maxVersion) with _ | maxV
              · rfl
              · simp only []
                exact ih _
      · simp only [if_neg hv]
        exact ih _
    · simp only [if_neg hn]
      exact ih _

/-- C9: related image selection is independent of the channels of the catalog,
and bundle selection depends only on the bundle package name and the version
carried by its olm.package property. -/
theorem C9_channels_ignored :
    (∀ (bundles : List Bundle) (ch1 ch2 : List Channel) (packages : List IncludePackage),
      getRelatedImages ⟨bundles, ch1⟩ packages = getRelatedImages ⟨bundles, ch2⟩ packages)
    ∧ (∀ (b1 b2 : Bundle) (ch1 ch2 : List Channel) (packages : List IncludePackage),
        b1.package = b2.package → bundleVersion b1 = bundleVersion b2 →
        isPackageSelected b1 ch1 packages = isPackageSelected b2 ch2 packages) := by
  constructor
  · intro bundles ch1 ch2 packages
    unfold getRelatedImages
    have hloop : ∀ (bs : List Bundle) (acc : List RelatedImage),
        getRelatedLoop ch1 packages bs acc = getRelatedLoop ch2 packages bs acc := by
      intro bs
      induction bs with
      | nil => intro acc; rfl
      | cons b rest ih =>
        intro acc
        simp only [getRelatedLoop]
        rcases hsel : isPackageSelected b ch2 packages with e | v
        · rw [show isPackageSelected b ch1 packages = isPackageSelected b ch2 packages
            from rfl, hsel]
        · rw [show isPackageSelected b ch1 packages = isPackageSelected b ch2 packages
            from rfl, hsel]
          cases v
          · exact ih acc
          · exact ih _
    simp only [hloop]
  · intro b1 b2 ch1 ch2 packages h1 h2
    exact selLoop_congr b1 b2 h1 h2 packages false

def bundleW2 : Bundle :=
  ⟨("pkgw").data, ("quay.io/w/other:v2").data,
    [⟨("olm.package").data, some (("1.2.3").data)⟩],
    [⟨("extra").data, ("quay.io/w/extra:v1").data⟩]⟩

def chanW : Channel := ⟨("stable").data, ("pkgw").data⟩

theorem C9_channels_ignored_witness :
    isPackageSelected bundleW [] [selW] = isPackageSelected bundleW2 [chanW] [selW] :=
  C9_channels_ignored.2 bundleW bundleW2 [] [chanW] [selW] (by decide) (by decide)

/-! ## C10: a missing or invalid bundle version is a hard error -/

theorem selLoop_step (b : Bundle) (p : IncludePackage) (rest : List IncludePackage)
    (acc : Bool) :
    (∃ e, isPackageSelectedLoop b (p :: rest) acc = .error e)
      ∨ (∃ acc2, isPackageSelectedLoop b (p :: rest) acc
          = isPackageSelectedLoop b rest acc2) := by
  simp only [isPackageSelectedLoop]
  by_cases hn : (p.name == b.package) = true
  · simp only [hn, if_true]
    by_cases hv : (!p.minVersion.isEmpty || !p.maxVersion.isEmpty) = true
    · simp only [hv, if_true]
      rcases hbv : bundleVersion b with e | vs
      · exact .inl ⟨e, rfl⟩
      · simp only []
        rcases hsm : semverMake vs with _ | pkgVer
        · exact .inl ⟨.badSemver, rfl⟩
        · simp only []
          rcases hminr : (if p.minVersion.isEmpty then some zeroSemVer
              else semverMake p.minVersion) with _ | minV
          · exact .inl ⟨.badSemver, rfl⟩
          · simp only []
            rcases hmaxr : (if p.maxVersion.isEmpty then some zeroSemVer
                else semverMake p.maxVersion) with _ | maxV
            · exact .inl ⟨.badSemver, rfl⟩
            · simp only []
              exact .inr ⟨_, rfl⟩
    · simp only [if_neg hv]
      exact .inr ⟨true, rfl⟩
  · simp only [if_neg hn]
    exact .inr ⟨acc, rfl⟩

theorem selLoop_err (b : Bundle) (sel : IncludePackage)
    (hname : sel.name = b.package)
    (hmm : sel.minVersion ≠ [] ∨ sel.maxVersion ≠ [])
    (hbad : bundleVersion b = .error CatErr.noVersion
        ∨ ∃ vs, bundleVersion b = .ok vs ∧ semverMake vs = none) :
    ∀ (pkgs : List IncludePackage), sel ∈ pkgs →
    ∀ acc, isErr (isPackageSelectedLoop b pkgs acc) = true := by
  intro pkgs
  induction pkgs with
  | nil => intro h; simp at h
  | cons p rest ih =>
    intro hmem acc
    rcases List.mem_cons.1 hmem with heq | hmem2
    · subst heq
      simp only [isPackageSelectedLoop]
      have hn : (sel.name == b.package) = true := by simp [hname]
      have hv : (!sel.minVersion.isEmpty || !sel.maxVersion.isEmpty) = true := by
        rcases hmm with h | h <;> simp [isEmpty_false_of_ne h]
      simp only [hn, hv, if_true]
      rcases hbad with hbv | ⟨vs, hbv, hsm⟩
      · simp [hbv, isErr]
      · simp [hbv, hsm, isErr]
    · rcases selLoop_step b p rest acc with ⟨e, hstep⟩ | ⟨acc2, hstep⟩
      · rw [hstep]; rfl
      · rw [hstep]; exact ih hmem2 acc2

theorem relLoop_err (ch : List Channel) (pkgs : List IncludePackage) (b : Bundle)
    (hberr : isErr (isPackageSelected b ch pkgs) = true) :
    ∀ (bs : List Bundle), b ∈ bs →
    ∀ acc, isErr (getRelatedLoop ch pkgs bs acc) = true := by
  intro bs
  induction bs with
  | nil => intro h; simp at h
  | cons b2 rest ih =>
    intro hmem acc
    rcases List.mem_cons.1 hmem with heq | hmem2
    · subst heq
      simp only [getRelatedLoop]
      rcases hsel : isPackageSelected b ch pkgs with e | v
      · simp [isErr]
      · rw [hsel] at hberr
        simp [isErr] at hberr
    · simp only [getRelatedLoop]
      rcases hsel : isPackageSelected b2 ch pkgs with e | v
      · simp [isErr]
      · cases v
        · exact ih hmem2 acc
        · exact ih hmem2 _

/-- C10: when a selector names the package of a bundle and carries a version
bound, a bundle without an olm.package property, or whose version string is
not valid semver, makes getRelatedImages fail for the whole catalog. -/
theorem C10_bad_version_errors (cfg : DeclarativeConfig) (packages : List IncludePackage)
    (sel : IncludePackage) (b : Bundle)
    (hsel : sel ∈ packages) (hb : b ∈ cfg.bundles)
    (hname : sel.name = b.package)
    (hmm : sel.minVersion ≠ [] ∨ sel.maxVersion ≠ [])
    (hbad : (∀ p ∈ b.properties, p.ptype ≠ typePackageStr)
        ∨ ∃ vs, bundleVersion b = .ok vs ∧ semverMake vs = none) :
    isErr (getRelatedImages cfg packages) = true := by
  have hbad2 : bundleVersion b = .error CatErr.noVersion
      ∨ ∃ vs, bundleVersion b = .ok vs ∧ semverMake vs = none := by
    rcases hbad with h | h
    · left
      unfold bundleVersion
      rw [List.find?_eq_none.2 ?_]
      intro p hp
      simpa using h p hp
    · exact .inr h
  have hselErr : isErr (isPackageSelected b cfg.channels packages) = true :=
    selLoop_err b sel hname hmm hbad2 packages hsel false
  unfold getRelatedImages
  rcases hloop : getRelatedLoop cfg.channels packages cfg.bundles [] with e | allImages
  · simp [isErr]
  · have h2 := relLoop_err cfg.channels packages b hselErr cfg.bundles hb []
    rw [hloop] at h2
    simp [isErr] at h2

def bundleNoVer : Bundle := ⟨("pkgx").data, ("quay.io/x/img:v1").data, [], []⟩

def selMinOnly : IncludePackage := ⟨("pkgx").data, ("1.0.0").data, []⟩

def cfgNoVer : DeclarativeConfig := ⟨[bundleNoVer], []⟩

theorem C10_bad_version_errors_witness :
    selMinOnly.name = bundleNoVer.package
      ∧ isErr (getRelatedImages cfgNoVer [selMinOnly]) = true :=
  ⟨by decide,
    C10_bad_version_errors cfgNoVer [selMinOnly] selMinOnly bundleNoVer
      (by simp) (by simp [cfgNoVer]) (by decide) (.inl (by decide))
      (.inl (by intro p hp; simp [bundleNoVer] at hp))⟩

/-! ## C1: the blob gatherer of the archive package (part_000) -/

/-- A fetched manifest, as the pair of its canonical digest and its parsed
content: a single-architecture manifest with config and layers, or a manifest
list / image index with child descriptors. -/
inductive ManifestContent where
  | single (config : Str) (layers : List Str)
  | index (children : List Str)
deriving DecidableEq

structure ManifestBlob where
  digest : Str
  content : ManifestContent
deriving DecidableEq

/-- getBlobsOfManifest parses the manifest with manifest.FromBlob, which
rejects manifest-list media types, and returns the layer digests followed by
the config digest. -/
def getBlobsOfManifest (m : ManifestBlob) : Except Str (List Str) :=
  match m.content with
  | .index _ => .error (("error unmarshalling manifest").data)
  | .single config layers => .ok (layers ++ [config])

/-- Assignment blobs with digest key and empty string value into the Go map. -/
def insertBlobEntry : List (Str × Str) → Str → List (Str × Str)
  | [], k => [(k, [])]
  | (k0, v0) :: rest, k =>
    if k0 == k then (k0, []) :: rest else (k0, v0) :: insertBlobEntry rest k

/-- GatherBlobs: fetch the top-level manifest (no instance digest), record its
digest with an empty value, then gather the blobs of that same manifest bytes.
The recursive manifest-list walk of the source is commented out; this is the
live code path. The image source is the external registry interface, modelled
as its GetManifest function. -/
def gatherBlobs (src : Option Str → Except Str ManifestBlob) :
    Except Str (List (Str × Str)) :=
  match src none with
  | .error e => .error e
  | .ok top =>
    let blobs := insertBlobEntry [] top.digest
    match getBlobsOfManifest top with
    | .error e => .error e
    | .ok manifestBlobs => .ok (manifestBlobs.foldl insertBlobEntry blobs)

/-- C1: for a multi-arch image, whose top-level manifest is a manifest list,
GatherBlobs returns the FromBlob unmarshalling error instead of the union of
the child digests and their config and layer digests: the recursive walk is
disabled in the code. -/
theorem C1_gatherBlobs_index_errors (src : Option Str → Except Str ManifestBlob)
    (dgst : Str) (children : List Str)
    (h : src none = .ok ⟨dgst, .index children⟩) :
    gatherBlobs src = .error (("error unmarshalling manifest").data) := by
  unfold gatherBlobs
  rw [h]
  rfl

/-- A two-architecture image: the top-level fetch returns a manifest list. -/
def multiArchSrc : Option Str → Except Str ManifestBlob := fun _ =>
  .ok ⟨("sha256:aatop").data,
    .index [("sha256:bbamd64").data, ("sha256:ccarm64").data]⟩

theorem C1_gatherBlobs_index_errors_witness :
    gatherBlobs multiArchSrc = .error (("error unmarshalling manifest").data) :=
  C1_gatherBlobs_index_errors multiArchSrc (("sha256:aatop").data)
    [("sha256:bbamd64").data, ("sha256:ccarm64").data] rfl

/-- For a single-arch image the gatherer does return the manifest digest plus
all layer digests and the config digest (supporting check of the model). -/
theorem gatherBlobs_single_arch (src : Option Str → Except Str ManifestBlob)
    (dgst config : Str) (layers : List Str)
    (h : src none = .ok ⟨dgst, .single config layers⟩) :
    gatherBlobs src = .ok ((layers ++ [config]).foldl insertBlobEntry [(dgst, [])]) := by
  unfold gatherBlobs
  rw [h]
  rfl

/-! ## The v2 mirror categorizer and cluster resource generator.
The implementation is not among the provided sources, only its tests are;
these definitions are modelled from the spec (section 4.5 and 4.6) and
validated against the expected outputs of TestGenerateImageMirrors,
TestCatalogSourceGenerator and TestGenerateSignatureConfigMap. -/

/-- A copy record: source, destination, origin references and the category. -/
structure CopyImageSchema where
  source : Str
  destination : Str
  origin : Str
  ctype : ImageType
deriving DecidableEq

inductive MirrorCategory where
  | operatorC
  | releaseC
  | genericC
deriving DecidableEq

inductive GeneratorMode where
  | digestsOnly
  | tagsOnly
deriving DecidableEq

/-- Modelled from the spec: category assignment of records to mirror-resource
buckets (spec 4.5); the Cincinnati graph image is emitted separately. -/
def categoryOf : ImageType → Option MirrorCategory
  | .typeOCPRelease => some .releaseC
  | .typeOCPReleaseContent => some .releaseC
  | .typeOperatorCatalog => some .operatorC
  | .typeOperatorBundle => some .operatorC
  | .typeOperatorRelatedImage => some .operatorC
  | .typeGeneric => some .genericC
  | .typeCincinnatiGraph => none

/-- Folding rule one of the spec: an existing key is a prefix of the new key
with a mirror that is a prefix of the new mirror under the same suffix. -/
def ruleOneApplies (entries : List (Str × List Str)) (sk mv : Str) : Bool :=
  entries.any (fun e => isLead e.1 sk && e.2.any (fun m2 =>
    isLead m2 mv && sk.drop e.1.length == mv.drop m2.length))

/-- Folding rule two of the spec: the new key is a prefix of the entry key
under the same shape. -/
def shapeSub (sk mv : Str) (e : Str × List Str) : Bool :=
  isLead sk e.1 && e.2.any (fun m2 => isLead mv m2 && e.1.drop sk.length == m2.drop mv.length)

def insertMirrorGo : List (Str × List Str) → Str → Str → List (Str × List Str)
  | [], sk, mv => [(sk, [mv])]
  | e :: rest, sk, mv =>
    if shapeSub sk mv e then (sk, [mv]) :: rest
    else if e.1 == sk then
      (e.1, if e.2.contains mv then e.2 else e.2 ++ [mv]) :: rest
    else e :: insertMirrorGo rest sk mv

/-- Modelled from the spec: inserting one derived rule into a bucket mapping,
with the spec folding: rule one keeps the mapping, rule two replaces the first
covered entry, rule three inserts or appends to the mirror list. -/
def insertMirror (entries : List (Str × List Str)) (sk mv : Str) : List (Str × List Str) :=
  if ruleOneApplies entries sk mv then entries else insertMirrorGo entries sk mv

structure MirrorBuckets where
  operatorB : List (Str × List Str)
  releaseB : List (Str × List Str)
  genericB : List (Str × List Str)
deriving DecidableEq

/-- Source key of a record: registry and namespace of the origin, plus the
repository under forced repository scope; empty segments are dropped. -/
def sourceKeyOf (force : Bool) (p : ParsedImageName) : Str :=
  if force then joinNE [p.registry, p.org, p.repo] else joinNE [p.registry, p.org]

def mirrorValOf (force : Bool) (p : ParsedImageName) : Str :=
  if force then joinNE [p.registry, p.org, p.repo] else joinNE [p.registry, p.org]

/-- Modelled from the spec and the tests: one record of the categorizer.
Cincinnati graph records are skipped (emitted by UpdateService); operator
catalog records are skipped (the expected outputs of TestGenerateImageMirrors
contain no mirrors for them: catalogs are referenced via CatalogSource);
records whose origin is a local oci catalog are skipped; records whose
destination host is the local cache FQDN are skipped (spec invariant five and
OCPBUGS-41608); the mode keeps digest-addressed or tag-addressed origins. -/
def processRecord (fqdn : Str) (mode : GeneratorMode) (force : Bool)
    (st : MirrorBuckets) (img : CopyImageSchema) : MirrorBuckets :=
  if img.ctype == .typeCincinnatiGraph then st
  else if img.ctype == .typeOperatorCatalog then st
  else if isLead (("oci:").data) img.origin then st
  else
    let o := parseImageName img.origin
    let d := parseImageName img.destination
    if d.registry == fqdn then st
    else
      let keep :=
        match mode with
        | .digestsOnly => !o.sha.isEmpty
        | .tagsOnly => o.sha.isEmpty && !o.tag.isEmpty
      if keep then
        let sk := sourceKeyOf force o
        let mv := mirrorValOf force d
        match categoryOf img.ctype with
        | some .operatorC => { st with operatorB := insertMirror st.operatorB sk mv }
        | some .releaseC => { st with releaseB := insertMirror st.releaseB sk mv }
        | some .genericC => { st with genericB := insertMirror st.genericB sk mv }
        | none => st
      else st

/-- Modelled from the spec: the categorizer folds the records into per-category
bucket mappings and emits the nonempty buckets in the order operator, release,
generic. -/
def generateImageMirrors (imgs : List CopyImageSchema) (mode : GeneratorMode)
    (force : Bool) (fqdn : Str) : List (MirrorCategory × List (Str × List Str)) :=
  let st := imgs.foldl (processRecord fqdn mode force) ⟨[], [], []⟩
  (if st.operatorB.isEmpty then [] else [(.operatorC, st.operatorB)])
    ++ (if st.releaseB.isEmpty then [] else [(.releaseC, st.releaseB)])
    ++ (if st.genericB.isEmpty then [] else [(.genericC, st.genericB)])

/-- Modelled from the spec: the records for which a CatalogSource file is
emitted: operator catalog records whose destination is not the cache host. -/
def generateCatalogSources (imgs : List CopyImageSchema) (fqdn : Str) :
    List CopyImageSchema :=
  imgs.filter (fun i => i.ctype == .typeOperatorCatalog
    && !((parseImageName i.destination).registry == fqdn))

/-! ## C5: the signature ConfigMap builder -/

structure ConfigMapModel where
  name : Str
  binaryData : List (Str × List Nat)
deriving DecidableEq

def natToStr (n : Nat) : Str := (Nat.repr n).data

/-- The filename stem and BinaryData key: the digest with its prefix and the
ordinal shifted by one, as fixed by TestGenerateSignatureConfigMap. -/
def sigStem (digest : Str) (n : Nat) : Str :=
  ("sha256-").data ++ digest ++ '-' :: natToStr (n + 1)

/-- Modelled from the spec and TestGenerateSignatureConfigMap: for a digest, an
ordinal and the raw signature bytes, emit a yaml and a json file, both named by
the stem and both carrying one BinaryData entry keyed by the stem with the
signature bytes as value. -/
def generateSignatureConfigMap (digest : Str) (n : Nat) (payload : List Nat) :
    List (Str × ConfigMapModel) :=
  let stem := sigStem digest n
  let cm : ConfigMapModel := ⟨stem, [(stem, payload)]⟩
  [(stem ++ (".yaml").data, cm), (stem ++ (".json").data, cm)]

/-! ## C3: no mirror rule points at the local cache -/

theorem splitOnChar_pieces (c : Char) (l : Str) :
    ∀ p ∈ splitOnChar c l, ∀ x ∈ p, x ≠ c := by
  induction l with
  | nil =>
    intro p hp
    simp [splitOnChar] at hp
    subst hp
    simp
  | cons y ys ih =>
    intro p hp x hx
    by_cases hy : y = c
    · simp only [splitOnChar, if_pos hy] at hp
      rcases List.mem_cons.1 hp with h1 | h1
      · subst h1; simp at hx
      · exact ih p h1 x hx
    · simp only [splitOnChar, if_neg hy] at hp
      cases hsp : splitOnChar c ys with
      | nil => exact absurd hsp (splitOnChar_ne_nil c ys)
      | cons s rest =>
        rw [hsp] at hp
        simp only [] at hp
        rcases List.mem_cons.1 hp with h1 | h1
        · subst h1
          rcases List.mem_cons.1 hx with h2 | h2
          · subst h2; exact hy
          · exact ih s (by rw [hsp]; exact List.mem_cons_self _ _) x h2
        · exact ih p (by rw [hsp]; exact List.mem_cons_of_mem _ h1) x hx

theorem headD_pieces (c : Char) (l : Str) : ∀ x ∈ (splitOnChar c l).headD [], x ≠ c := by
  cases hs : splitOnChar c l with
  | nil => simp
  | cons p rest =>
    intro x hx
    exact splitOnChar_pieces c l p (by rw [hs]; exact List.mem_cons_self _ _) x
      (by simpa using hx)

theorem parseImageName_registry (s : Str) :
    (parseImageName s).registry
      = (splitOnChar '/' (trimTail ['/'] (trimLead ['/'] (trimProtocol s)))).headD [] := by
  simp only [parseImageName]
  split_ifs <;> rfl

theorem parseImageName_registry_no_slash (s : Str) :
    ∀ x ∈ (parseImageName s).registry, x ≠ '/' := by
  rw [parseImageName_registry]
  exact headD_pieces '/' _

theorem headSeg_joinNE (reg : Str) (rest : List Str) (hne : reg ≠ [])
    (hsl : ∀ x ∈ reg, x ≠ '/') : headSeg (joinNE (reg :: rest)) = reg := by
  unfold joinNE
  rw [List.filter_cons, if_pos (by simp [isEmpty_false_of_ne hne])]
  cases hf : rest.filter (fun s => !s.isEmpty) with
  | nil => exact headSeg_no_slash reg hsl
  | cons s2 rest2 => exact headSeg_append_slash reg _ hsl

theorem headSeg_mirrorValOf (force : Bool) (p : ParsedImageName)
    (hne : p.registry ≠ []) (hsl : ∀ x ∈ p.registry, x ≠ '/') :
    headSeg (mirrorValOf force p) = p.registry := by
  unfold mirrorValOf
  split_ifs <;> exact headSeg_joinNE _ _ hne hsl

theorem insertMirrorGo_mirrors {sk mv : Str} {e : Str × List Str} {m2 : Str} :
    ∀ {entries : List (Str × List Str)},
    e ∈ insertMirrorGo entries sk mv → m2 ∈ e.2 →
    (∃ e0 ∈ entries, m2 ∈ e0.2) ∨ m2 = mv := by
  intro entries
  induction entries with
  | nil =>
    intro he hm
    simp [insertMirrorGo] at he
    subst he
    simp at hm
    exact .inr hm
  | cons e1 rest ih =>
    intro he hm
    simp only [insertMirrorGo] at he
    by_cases h1 : shapeSub sk mv e1 = true
    · rw [if_pos h1] at he
      rcases List.mem_cons.1 he with h | h
      · subst h; simp at hm; exact .inr hm
      · exact .inl ⟨e, List.mem_cons_of_mem _ h, hm⟩
    · rw [if_neg h1] at he
      by_cases h2 : (e1.1 == sk) = true
      · rw [if_pos h2] at he
        rcases List.mem_cons.1 he with h | h
        · subst h
          simp only [] at hm
          by_cases h3 : (e1.2.contains mv) = true
          · rw [if_pos h3] at hm
            exact .inl ⟨e1, List.mem_cons_self _ _, hm⟩
          · rw [if_neg h3] at hm
            rcases List.mem_append.1 hm with h4 | h4
            · exact .inl ⟨e1, List.mem_cons_self _ _, h4⟩
            · simp at h4
              exact .inr h4
        · exact .inl ⟨e, List.mem_cons_of_mem _ h, hm⟩
      · rw [if_neg h2] at he
        rcases List.mem_cons.1 he with h | h
        · exact .inl ⟨e1, List.mem_cons_self _ _, h ▸ hm⟩
        · rcases ih h hm with ⟨e0, he0, hm0⟩ | hr
          · exact .inl ⟨e0, List.mem_cons_of_mem _ he0, hm0⟩
          · exact .inr hr

theorem insertMirror_mirrors {entries : List (Str × List Str)} {sk mv : Str}
    {e : Str × List Str} {m2 : Str}
    (he : e ∈ insertMirror entries sk mv) (hm : m2 ∈ e.2) :
    (∃ e0 ∈ entries, m2 ∈ e0.2) ∨ m2 = mv := by
  unfold insertMirror at he
  by_cases h : ruleOneApplies entries sk mv = true
  · rw [if_pos h] at he
    exact .inl ⟨e, he, hm⟩
  · rw [if_neg h] at he
    exact insertMirrorGo_mirrors he hm

/-- Every mirror value in every entry has a host different from the cache. -/
def entriesGood (fqdn : Str) (entries : List (Str × List Str)) : Prop :=
  ∀ e ∈ entries, ∀ m2 ∈ e.2, headSeg m2 ≠ fqdn

theorem insertMirror_good {fqdn : Str} {entries : List (Str × List Str)} {sk mv : Str}
    (h : entriesGood fqdn entries) (hmv : headSeg mv ≠ fqdn) :
    entriesGood fqdn (insertMirror entries sk mv) := by
  intro e he m2 hm
  rcases insertMirror_mirrors he hm with ⟨e0, he0, hm0⟩ | hr
  · exact h e0 he0 m2 hm0
  · subst hr; exact hmv

def bucketsGood (fqdn : Str) (st : MirrorBuckets) : Prop :=
  entriesGood fqdn st.operatorB ∧ entriesGood fqdn st.releaseB
    ∧ entriesGood fqdn st.genericB

theorem processRecord_good {fqdn : Str} {mode : GeneratorMode} {force : Bool}
    {st : MirrorBuckets} {img : CopyImageSchema}
    (h : bucketsGood fqdn st)
    (hreg : (parseImageName img.destination).registry ≠ []) :
    bucketsGood fqdn (processRecord fqdn mode force st img) := by
  unfold processRecord
  by_cases h1 : (img.ctype == ImageType.typeCincinnatiGraph) = true
  · rw [if_pos h1]; exact h
  · rw [if_neg h1]
    by_cases h2 : (img.ctype == ImageType.typeOperatorCatalog) = true
    · rw [if_pos h2]; exact h
    · rw [if_neg h2]
      by_cases h3 : isLead (("oci:").data) img.origin = true
      · rw [if_pos h3]; exact h
      · rw [if_neg h3]
        simp only []
        by_cases h4 : ((parseImageName img.destination).registry == fqdn) = true
        · rw [if_pos h4]; exact h
        · rw [if_neg h4]
          have hne : (parseImageName img.destination).registry ≠ fqdn := by
            intro hh
            exact h4 (by simp [hh])
          have hmv : headSeg (mirrorValOf force (parseImageName img.destination)) ≠ fqdn := by
            rw [headSeg_mirrorValOf force _ hreg (parseImageName_registry_no_slash _)]
            exact hne
          cases hk : (match mode with
              | GeneratorMode.digestsOnly => !(parseImageName img.origin).sha.isEmpty
              | GeneratorMode.tagsOnly =>
                (parseImageName img.origin).sha.isEmpty
                  && !(parseImageName img.origin).tag.isEmpty) with
          | false => rw [if_neg (by simp)]; exact h
          | true =>
            rw [if_pos rfl]
            obtain ⟨hop, hrel, hgen⟩ := h
            cases hc : categoryOf img.ctype with
            | none => exact ⟨hop, hrel, hgen⟩
            | some cat =>
              cases cat
              · exact ⟨insertMirror_good hop hmv, hrel, hgen⟩
              · exact ⟨hop, insertMirror_good hrel hmv, hgen⟩
              · exact ⟨hop, hrel, insertMirror_good hgen hmv⟩

theorem foldl_processRecord_good {fqdn : Str} {mode : GeneratorMode} {force : Bool} :
    ∀ (l : List CopyImageSchema),
    (∀ img ∈ l, (parseImageName img.destination).registry ≠ []) →
    ∀ st, bucketsGood fqdn st →
    bucketsGood fqdn (l.foldl (processRecord fqdn mode force) st) := by
  intro l
  induction l with
  | nil => intro _ st h; exact h
  | cons i rest ih =>
    intro hl st h
    exact ih (fun im hm => hl im (List.mem_cons_of_mem _ hm)) _
      (processRecord_good h (hl i (List.mem_cons_self _ _)))

/-- C3: the categorizer never emits a mirror whose host is the local cache
FQDN: a record whose destination host equals it is skipped, and likewise such
an operator catalog record receives no CatalogSource file. The hypothesis asks
that destinations parse to a nonempty registry host. -/
theorem C3_no_cache_mirrors (imgs : List CopyImageSchema) (mode : GeneratorMode)
    (force : Bool) (fqdn : Str)
    (hreg : ∀ img ∈ imgs, (parseImageName img.destination).registry ≠ []) :
    (∀ bucket ∈ generateImageMirrors imgs mode force fqdn, entriesGood fqdn bucket.2)
    ∧ ∀ img ∈ imgs, img.ctype = .typeOperatorCatalog →
        (parseImageName img.destination).registry = fqdn →
        img ∉ generateCatalogSources imgs fqdn := by
  constructor
  · have hfold := @foldl_processRecord_good fqdn mode force
      imgs hreg ⟨[], [], []⟩
      ⟨by intro e he; simp at he, by intro e he; simp at he, by intro e he; simp at he⟩
    obtain ⟨hop, hrel, hgen⟩ := hfold
    intro bucket hb
    unfold generateImageMirrors at hb
    simp only [List.mem_append] at hb
    rcases hb with (hb | hb) | hb <;> [skip; skip; skip]
    · split_ifs at hb with h5
      · simp at hb
      · simp at hb
        subst hb
        exact hop
    · split_ifs at hb with h5
      · simp at hb
      · simp at hb
        subst hb
        exact hrel
    · split_ifs at hb with h5
      · simp at hb
      · simp at hb
        subst hb
        exact hgen
  · intro img hm hcat hfq hmem
    rcases List.mem_filter.1 hmem with ⟨_, hp⟩
    rw [hfq] at hp
    simp at hp

def fqdnW : Str := ("localhost:55000").data

def imgRelW : CopyImageSchema :=
  ⟨("docker://localhost:5000/relns/img@sha256:aa").data,
   ("docker://myreg.io/myns/relns/img@sha256:aa").data,
   ("docker://quay.io/relns/img@sha256:aa").data, .typeOCPRelease⟩

def imgCatW : CopyImageSchema :=
  ⟨("docker://localhost:5000/redhat/idx:v1").data,
   ("docker://localhost:55000/redhat/idx:v1").data,
   ("docker://registry.redhat.io/redhat/idx:v1").data, .typeOperatorCatalog⟩

theorem C3_no_cache_mirrors_witness :
    (∀ img ∈ [imgRelW, imgCatW], (parseImageName img.destination).registry ≠ [])
      ∧ (∀ bucket ∈ generateImageMirrors [imgRelW, imgCatW] .digestsOnly false fqdnW,
          entriesGood fqdnW bucket.2)
      ∧ (∀ img ∈ [imgRelW, imgCatW], img.ctype = .typeOperatorCatalog →
          (parseImageName img.destination).registry = fqdnW →
          img ∉ generateCatalogSources [imgRelW, imgCatW] fqdnW) :=
  ⟨by decide,
    (C3_no_cache_mirrors [imgRelW, imgCatW] .digestsOnly false fqdnW (by decide)).1,
    (C3_no_cache_mirrors [imgRelW, imgCatW] .digestsOnly false fqdnW (by decide)).2⟩

/-- C5 (amended): GenerateSignatureConfigMap emits exactly two files, a yaml
and a json, both named by the stem built from the digest and the ordinal plus
one, and both carrying a single BinaryData entry keyed by that stem with the
signature bytes as value. -/
theorem C5_signature_configmap (digest : Str) (n : Nat) (payload : List Nat) :
    (generateSignatureConfigMap digest n payload).length = 2
      ∧ (generateSignatureConfigMap digest n payload).map Prod.fst
          = [sigStem digest n ++ (".yaml").data, sigStem digest n ++ (".json").data]
      ∧ (generateSignatureConfigMap digest n payload).map (fun f => f.2.binaryData)
          = [[(sigStem digest n, payload)], [(sigStem digest n, payload)]] :=
  ⟨rfl, rfl, rfl⟩

def digestT : Str :=
  ("37433b71c073c6cbfc8173ec7ab2d99032c8e6d6fe29de06e062d85e33e34531").data

/-- C5 counterexample: at ordinal zero the emitted filenames carry the suffix
one, not zero: the file names are not the stem the claim states. This is the
behavior TestGenerateSignatureConfigMap fixes. -/
theorem C5_counterexample :
    (generateSignatureConfigMap digestT 0 [1, 2, 3]).map Prod.fst
        = [("sha256-").data ++ digestT ++ (("-1.yaml").data),
           ("sha256-").data ++ digestT ++ (("-1.json").data)]
      ∧ (generateSignatureConfigMap digestT 0 [1, 2, 3]).map Prod.fst
        ≠ [("sha256-").data ++ digestT ++ (("-0.yaml").data),
           ("sha256-").data ++ digestT ++ (("-0.json").data)] := by
  constructor
  · decide
  · decide

/-! ## Validation of the spec-modelled categorizer against the in-tree tests
(shortened forms of the vectors of TestGenerateImageMirrors and
TestCatalogSourceGenerator). -/

def tKb : CopyImageSchema :=
  ⟨("docker://localhost:5000/kb/proxy:v0.5.0").data,
   ("docker://myregistry/mynamespace/kb/proxy:v0.5.0").data,
   ("docker://gcr.io/kb/proxy:v0.5.0").data, .typeOperatorRelatedImage⟩

def tBundle : CopyImageSchema :=
  ⟨("docker://localhost:5000/ops/cockroachdb@sha256:aa11").data,
   ("docker://myregistry/mynamespace/ops/cockroachdb@sha256:aa11").data,
   ("docker://quay.io/ops/cockroachdb@sha256:aa11").data, .typeOperatorBundle⟩

def tCatalog : CopyImageSchema :=
  ⟨("docker://localhost:5000/openshift/community@sha256:bb22").data,
   ("docker://myregistry/mynamespace/openshift/community@sha256:bb22").data,
   ("docker://quay.io/openshift/community@sha256:bb22").data, .typeOperatorCatalog⟩

def tCatalogOci : CopyImageSchema :=
  ⟨("docker://localhost:5000/openshift/idx@sha256:bb22").data,
   ("docker://myregistry/mynamespace/openshift/idx@sha256:bb22").data,
   ("oci:///tmp/app1").data, .typeOperatorCatalog⟩

def tMinimal : CopyImageSchema :=
  ⟨("docker://localhost:55000/ubi8-minimal:bb33").data,
   ("docker://myregistry/mynamespace/ubi8-minimal@sha256:bb33").data,
   ("docker://registry.redhat.io/ubi8-minimal@sha256:bb33").data,
   .typeOperatorRelatedImage⟩

def tUbi : CopyImageSchema :=
  ⟨("docker://localhost:5000/ubi8/ubi:latest").data,
   ("docker://myregistry/mynamespace/ubi8/ubi:latest").data,
   ("docker://registry.redhat.io/ubi8/ubi:latest").data, .typeGeneric⟩

def tGraph : CopyImageSchema :=
  ⟨("docker://localhost:5000/openshift/graph-image:latest").data,
   ("docker://myregistry/mynamespace/openshift/graph-image:latest").data,
   ("docker://localhost:5000/openshift/graph-image:latest").data, .typeCincinnatiGraph⟩

def tRelease : CopyImageSchema :=
  ⟨("docker://localhost:5000/openshift-release-dev/ocp-art@sha256:dd44").data,
   ("docker://myregistry/mynamespace/openshift-release-dev/ocp-art@sha256:dd44").data,
   ("docker://quay.io/openshift-release-dev/ocp-art@sha256:dd44").data, .typeOCPRelease⟩

def tMixed : List CopyImageSchema :=
  [tKb, tBundle, tBundle, tCatalog, tCatalogOci, tMinimal, tUbi, tGraph, tRelease, tRelease]

/-- Digests-only mode on the mixed list reproduces the shape the test expects:
operator bucket from the bundle and the namespace-less related image, release
bucket from the release payload; catalogs, the graph image and tagged images
contribute nothing. -/
theorem modelCheck_digestsOnly :
    generateImageMirrors tMixed .digestsOnly false fqdnW
      = [(.operatorC,
           [(("quay.io/ops").data, [("myregistry/mynamespace/ops").data]),
            (("registry.redhat.io").data, [("myregistry/mynamespace").data])]),
         (.releaseC,
           [(("quay.io/openshift-release-dev").data,
             [("myregistry/mynamespace/openshift-release-dev").data])])] := by
  decide

/-- Tags-only mode keeps the tagged operator related image and the tagged
generic image only. -/
theorem modelCheck_tagsOnly :
    generateImageMirrors tMixed .tagsOnly false fqdnW
      = [(.operatorC, [(("gcr.io/kb").data, [("myregistry/mynamespace/kb").data])]),
         (.genericC,
           [(("registry.redhat.io/ubi8").data, [("myregistry/mynamespace/ubi8").data])])] := by
  decide

/-- Forced repository scope extends keys and mirrors to the repository. -/
theorem modelCheck_repositoryScope :
    generateImageMirrors [tBundle] .digestsOnly true fqdnW
      = [(.operatorC,
           [(("quay.io/ops/cockroachdb").data,
             [("myregistry/mynamespace/ops/cockroachdb").data])])] := by
  decide

/-- A catalog destined to the cache receives no CatalogSource; one destined to
the target registry does. -/
theorem modelCheck_catalogSources :
    generateCatalogSources [tCatalog, imgCatW] fqdnW = [tCatalog] := by
  decide

end OcMirror
